import Mathlib

/-!
# Verification of the DouyinStream Pro adaptive extraction engine

Shallow embedding of `src/core/extraction_strategies.py` and the two
fetch-and-orchestrate wrappers (`src/web/backend/core/douyin_extractor.py`,
`src/desktop/core/douyin_extractor.py`).

Python dictionaries, JSON values and the dynamically-typed values that flow
through the strategies are modelled by `PyVal`; Python dicts are association
lists whose keys are unique by construction (every dict built by the embedded
JSON parser is deduplicated the way `json.loads` deduplicates repeated keys,
keeping the last value).  A strategy-internal Python exception (caught by the
`except` blocks of the source and converted to `None`) is modelled by `none`
propagation through `Option`.

Modelling notes (documented simplifications, none of which a claim touches):
* Python `re` word/digit classes (`\w`, `\d`) are modelled on their ASCII
  subsets, `str.lower` on ASCII case-mapping.
* Non-integral JSON numbers are kept as their raw lexeme (`PyVal.numRaw`);
  they never compare equal to an integer in the model (Python's `2.0 == 2`
  float edge is out of scope, as floating point is not modelled).
* The JSON parser is fuel-indexed; the fuel supplied by `parseJson` is linear
  in the input length and suffices for every fixture used here.
-/

namespace DouyinStream

/-- A Python/JSON value as it flows through the extraction strategies. -/
inductive PyVal where
  | null
  | bool (b : Bool)
  | int (n : Int)
  | numRaw (lexeme : String)
  | str (s : String)
  | list (xs : List PyVal)
  | dict (kvs : List (String × PyVal))

/-- Python truthiness test (`if not x`), restricted to the value forms the
parser can produce.  A `numRaw` (non-integral number) is treated as truthy. -/
def pyFalsy : PyVal → Bool
  | .null => true
  | .bool b => !b
  | .int n => n == 0
  | .numRaw _ => false
  | .str s => s.isEmpty
  | .list xs => xs.isEmpty
  | .dict kvs => kvs.isEmpty

/-- First binding of `k` in an association list (Python dict lookup; dicts
built by the parser have unique keys, so first = only). -/
def dictLookup (k : String) : List (String × PyVal) → Option PyVal
  | [] => none
  | (k', v) :: rest => if k' = k then some v else dictLookup k rest

/-- Python dict assignment `d[k] = v`: update in place when the key exists
(keeping its position), otherwise append. -/
def dictAssign (kvs : List (String × PyVal)) (k : String) (v : PyVal) :
    List (String × PyVal) :=
  match kvs with
  | [] => [(k, v)]
  | (k', v') :: rest =>
    if k' = k then (k', v) :: rest else (k', v') :: dictAssign rest k v

/-- Python `x.get(k, default)`.  Returns `none` when `x` is not a dict
(the `AttributeError` raised by the source, caught by its `except` block). -/
def pyGetD (v : PyVal) (k : String) (default : PyVal) : Option PyVal :=
  match v with
  | .dict kvs => some ((dictLookup k kvs).getD default)
  | _ => none

/-! ## Character-level scanning helpers (the `re` patterns of the source) -/

/-- `needle` occurs as a prefix of `hay`. -/
def startsWithList (needle hay : List Char) : Bool :=
  match needle, hay with
  | [], _ => true
  | _ :: _, [] => false
  | n :: ns, h :: hs => n = h && startsWithList ns hs

/-- `needle` occurs as a contiguous sublist of `hay`. -/
def hasSubList (needle hay : List Char) : Bool :=
  match hay with
  | [] => startsWithList needle []
  | _ :: rest => startsWithList needle hay || hasSubList needle rest

/-- `needle` occurs as a substring of `hay` (Python `needle in hay`). -/
def hasSubStr (needle hay : String) : Bool :=
  hasSubList needle.data hay.data

/-! ### Strategy 1 URL scanning

`re.findall(r'"(https?://[^"]+\.flv[^"]*)"', html)` (and the `.m3u8`
variant).  A match is a quoted span that starts with `http://` or
`https://` and contains `.` + suffix at least one character after the
protocol; the captured group always extends to the character before the
closing quote (the trailing `[^"]*` is greedy and `[^"]` cannot cross a
quote).  Matches are scanned left to right and are non-overlapping: a
successful match consumes its closing quote. -/

/-- Attempt the quoted-URL match immediately after an opening quote.
Returns the captured URL and the text after the closing quote. -/
def tryQuotedUrl (dotSuffix : List Char) (rest : List Char) :
    Option (List Char × List Char) :=
  let content := rest.takeWhile (· ≠ '"')
  match rest.dropWhile (· ≠ '"') with
  | [] => none
  | _ :: afterQuote =>
    let proto8 := startsWithList "https://".data content
    let proto7 := startsWithList "http://".data content
    if proto8 || proto7 then
      let tail := content.drop (if proto8 then 8 else 7)
      if tail.length ≥ 1 && hasSubList dotSuffix (tail.drop 1) then
        some (content, afterQuote)
      else none
    else none

/-- Fuel-indexed scan for all quoted URLs with the given `.suffix`.
Called with fuel ≥ input length, which makes the fuel invisible. -/
def urlScanAux (dotSuffix : List Char) : Nat → List Char → List (List Char)
  | 0, _ => []
  | _, [] => []
  | fuel + 1, c :: rest =>
    if c = '"' then
      match tryQuotedUrl dotSuffix rest with
      | some (url, rest') => url :: urlScanAux dotSuffix fuel rest'
      | none => urlScanAux dotSuffix fuel rest
    else urlScanAux dotSuffix fuel rest

/-- `re.findall(r'"(https?://[^"]+\.flv[^"]*)"', html)` -/
def flvUrls (html : String) : List String :=
  (urlScanAux ".flv".data html.data.length html.data).map String.mk

/-- `re.findall(r'"(https?://[^"]+\.m3u8[^"]*)"', html)` -/
def m3u8Urls (html : String) : List String :=
  (urlScanAux ".m3u8".data html.data.length html.data).map String.mk

/-- `re.search(r'_(sd|hd|uhd|origin|ld)\.', url)`: the quality token captured
at the first matching position, if any.  The five alternatives start with
distinct letters, so alternation order never matters at a position. -/
def qualityToken : List Char → Option String
  | [] => none
  | c :: rest =>
    if c = '_' && startsWithList "sd.".data rest then some "sd"
    else if c = '_' && startsWithList "hd.".data rest then some "hd"
    else if c = '_' && startsWithList "uhd.".data rest then some "uhd"
    else if c = '_' && startsWithList "origin.".data rest then some "origin"
    else if c = '_' && startsWithList "ld.".data rest then some "ld"
    else qualityToken rest

/-- `re.search('"key":"([^"]+)"', html)`: first occurrence of the literal
`"key":"` that is followed by at least one non-quote character and a closing
quote; on a failed occurrence the scan continues at the next character. -/
def kvScanAux (lit : List Char) : Nat → List Char → Option (List Char)
  | 0, _ => none
  | _, [] => none
  | fuel + 1, cs@(_ :: rest) =>
    if startsWithList lit cs then
      let after := cs.drop lit.length
      let content := after.takeWhile (· ≠ '"')
      if content ≠ [] && (after.dropWhile (· ≠ '"')) ≠ [] then some content
      else kvScanAux lit fuel rest
    else kvScanAux lit fuel rest

/-- First `"title":"..."` match in the HTML. -/
def titleScan (html : String) : Option String :=
  (kvScanAux "\"title\":\"".data html.data.length html.data).map String.mk

/-- First `"nickname":"..."` match in the HTML. -/
def nicknameScan (html : String) : Option String :=
  (kvScanAux "\"nickname\":\"".data html.data.length html.data).map String.mk

/-! ## The normalized output record -/

/-- The dict returned by every strategy:
`{'url': ..., 'title': ..., 'author': ..., 'is_live': ..., 'qualities': ...}`. -/
structure StreamRec where
  url : PyVal
  title : PyVal
  author : PyVal
  isLive : Bool
  qualities : List (String × PyVal)

/-- Values of a qualities map. -/
def qualValues (kvs : List (String × PyVal)) : List PyVal :=
  kvs.map Prod.snd

/-! ## Strategy 1: `DirectURLStrategy` -/

/-- `DirectURLStrategy.can_extract`:
`re.search(r'\.flv["\']', html) or re.search(r'\.m3u8["\']', html)`. -/
def directCanExtract (html : String) : Bool :=
  hasSubStr ".flv\"" html || hasSubStr ".flv\x27" html ||
    hasSubStr ".m3u8\"" html || hasSubStr ".m3u8\x27" html

/-- The quality-grouping loop of `DirectURLStrategy.extract`:
`for url in candidates: if token: if token not in qualities: qualities[token] = url`. -/
def buildQualStep (q : List (String × String)) (url : String) :
    List (String × String) :=
  match qualityToken url.data with
  | some t => if (q.lookup t).isNone then q ++ [(t, url)] else q
  | none => q

/-- Quality map accumulated over the candidate list. -/
def buildQual (urls : List String) : List (String × String) :=
  urls.foldl buildQualStep []

/-- `DirectURLStrategy.extract` (src/core/extraction_strategies.py:65–117). -/
def directExtract (html : String) : Option StreamRec :=
  let flv := flvUrls html
  let m3u8 := m3u8Urls html
  match flv ++ m3u8 with
  | [] => none
  | best :: _ =>
    let quals := buildQual ((flv ++ m3u8).take 10)
    let quals := if quals = [] then [("best", best)] else quals
    let title := (titleScan html).getD "Douyin Live"
    let author := (nicknameScan html).getD "Unknown"
    some ⟨.str best, .str title, .str author, true,
      quals.map fun p => (p.1, .str p.2)⟩

/-! ## JSON parsing (`json.loads`)

A recursive-descent parser producing `PyVal`.  Any lexical or structural
error yields `none` (the `json.JSONDecodeError` caught by the strategies).
Objects are built with `dictAssign`, so repeated keys keep the last value
and every produced dict has unique keys, as for Python dicts. -/

/-- JSON whitespace. -/
def isJsonWs (c : Char) : Bool :=
  c = ' ' || c = '\t' || c = '\n' || c = '\r'

/-- Skip JSON whitespace. -/
def skipWs (cs : List Char) : List Char :=
  cs.dropWhile isJsonWs

/-- Value of a hexadecimal digit. -/
def hexVal (c : Char) : Option Nat :=
  if '0' ≤ c ∧ c ≤ '9' then some (c.toNat - '0'.toNat)
  else if 'a' ≤ c ∧ c ≤ 'f' then some (c.toNat - 'a'.toNat + 10)
  else if 'A' ≤ c ∧ c ≤ 'F' then some (c.toNat - 'A'.toNat + 10)
  else none

/-- Decode the four hex digits of a `\uXXXX` escape. -/
def hex4 : List Char → Option (Nat × List Char)
  | a :: b :: c :: d :: rest =>
    match hexVal a, hexVal b, hexVal c, hexVal d with
    | some x, some y, some z, some w =>
      some (((x * 16 + y) * 16 + z) * 16 + w, rest)
    | _, _, _, _ => none
  | _ => none

/-- Parse the body of a JSON string literal after its opening quote.
Rejects raw control characters and unknown escapes; combines `\u` surrogate
pairs (a lone surrogate fails, see the modelling notes). -/
def parseStrBody : Nat → List Char → List Char → Option (String × List Char)
  | 0, _, _ => none
  | fuel + 1, acc, cs =>
    match cs with
    | [] => none
    | '"' :: rest => some (String.mk acc.reverse, rest)
    | '\\' :: esc :: rest =>
      match esc with
      | '"' => parseStrBody fuel ('"' :: acc) rest
      | '\\' => parseStrBody fuel ('\\' :: acc) rest
      | '/' => parseStrBody fuel ('/' :: acc) rest
      | 'b' => parseStrBody fuel ('\x08' :: acc) rest
      | 'f' => parseStrBody fuel ('\x0c' :: acc) rest
      | 'n' => parseStrBody fuel ('\n' :: acc) rest
      | 'r' => parseStrBody fuel ('\r' :: acc) rest
      | 't' => parseStrBody fuel ('\t' :: acc) rest
      | 'u' =>
        match hex4 rest with
        | none => none
        | some (n, rest2) =>
          if 0xd800 ≤ n ∧ n ≤ 0xdbff then
            match rest2 with
            | '\\' :: 'u' :: rest3 =>
              match hex4 rest3 with
              | some (m, rest4) =>
                if 0xdc00 ≤ m ∧ m ≤ 0xdfff then
                  let cp := 0x10000 + (n - 0xd800) * 0x400 + (m - 0xdc00)
                  if h : cp < 0xd800 ∨ 0xdfff < cp ∧ cp < 0x110000 then
                    parseStrBody fuel (Char.ofNatAux cp h :: acc) rest4
                  else none
                else none
              | none => none
            | _ => none
          else if h : n < 0xd800 ∨ 0xdfff < n ∧ n < 0x110000 then
            parseStrBody fuel (Char.ofNatAux n h :: acc) rest2
          else none
      | _ => none
    | c :: rest =>
      if c.toNat < 0x20 then none else parseStrBody fuel (c :: acc) rest

/-- Digits of a natural number read most-significant first. -/
def digitsToNat (ds : List Char) : Nat :=
  ds.foldl (fun n d => n * 10 + (d.toNat - '0'.toNat)) 0

/-- Parse a JSON number into its token: an integer value for an integral
lexeme, the raw lexeme for one with a fraction or exponent part. -/
def parseNumTok (cs : List Char) : Option ((Int ⊕ String) × List Char) :=
  let neg : Bool :=
    match cs with
    | '-' :: _ => true
    | _ => false
  let cs1 :=
    match cs with
    | '-' :: rest => rest
    | _ => cs
  let intDigits := cs1.takeWhile Char.isDigit
  match intDigits with
  | [] => none
  | d0 :: drest =>
    -- JSON forbids leading zeros: `0` only stands alone.
    if d0 = '0' ∧ drest ≠ [] then none
    else
      let afterInt := cs1.drop intDigits.length
      let fracDigits :=
        match afterInt with
        | '.' :: fs => fs.takeWhile Char.isDigit
        | _ => []
      let afterFrac :=
        match afterInt with
        | '.' :: fs => (fs.dropWhile Char.isDigit : List Char)
        | _ => afterInt
      if afterInt ≠ afterFrac ∧ fracDigits = [] then none
      else
        let hasExp : Bool :=
          match afterFrac with
          | 'e' :: _ => true
          | 'E' :: _ => true
          | _ => false
        let expTail :=
          match afterFrac with
          | 'e' :: es => es
          | 'E' :: es => es
          | _ => []
        let expTail2 :=
          match expTail with
          | '+' :: t => t
          | '-' :: t => t
          | _ => expTail
        let expDigits := expTail2.takeWhile Char.isDigit
        let afterExp :=
          if hasExp then (expTail2.dropWhile Char.isDigit : List Char)
          else afterFrac
        if hasExp ∧ expDigits = [] then none
        else if fracDigits = [] ∧ ¬ hasExp then
          let n : Int := Int.ofNat (digitsToNat intDigits)
          some (.inl (if neg then -n else n), afterInt)
        else
          let len := cs.length - afterExp.length
          some (.inr (String.mk (cs.take len)), afterExp)

/-- A JSON number as a `PyVal`: `PyVal.int` or `PyVal.numRaw`. -/
def parseNum (cs : List Char) : Option (PyVal × List Char) :=
  (parseNumTok cs).map fun t =>
    (match t.1 with
     | .inl n => .int n
     | .inr s => .numRaw s, t.2)

mutual

/-- Parse one JSON value (leading whitespace allowed). -/
def parseVal : Nat → List Char → Option (PyVal × List Char)
  | 0, _ => none
  | fuel + 1, cs =>
    match skipWs cs with
    | [] => none
    | c :: rest =>
      if c = '"' then
        (parseStrBody (fuel + 1) [] rest).map fun (s, r) => (.str s, r)
      else if c = Char.ofNat 123 then parseObj fuel rest
      else if c = '[' then parseArr fuel rest
      else if startsWithList "true".data (c :: rest) then
        some (.bool true, (c :: rest).drop 4)
      else if startsWithList "false".data (c :: rest) then
        some (.bool false, (c :: rest).drop 5)
      else if startsWithList "null".data (c :: rest) then
        some (.null, (c :: rest).drop 4)
      else parseNum (c :: rest)

/-- Parse an array body after `[`. -/
def parseArr (fuel : Nat) (cs : List Char) : Option (PyVal × List Char) :=
  match fuel with
  | 0 => none
  | fuel + 1 =>
    match skipWs cs with
    | ']' :: rest => some (.list [], rest)
    | other => (parseArrItems fuel other).map fun (xs, r) => (.list xs, r)

/-- Parse `value (, value)* ]`. -/
def parseArrItems (fuel : Nat) (cs : List Char) :
    Option (List PyVal × List Char) :=
  match fuel with
  | 0 => none
  | fuel + 1 =>
    match parseVal fuel cs with
    | none => none
    | some (v, rest) =>
      match skipWs rest with
      | ',' :: rest2 =>
        (parseArrItems fuel rest2).map fun (xs, r) => (v :: xs, r)
      | ']' :: rest2 => some ([v], rest2)
      | _ => none

/-- Parse an object body after the opening brace. -/
def parseObj (fuel : Nat) (cs : List Char) : Option (PyVal × List Char) :=
  match fuel with
  | 0 => none
  | fuel + 1 =>
    match skipWs cs with
    | c :: rest =>
      if c = Char.ofNat 125 then some (.dict [], rest)
      else
        (parseObjItems fuel (c :: rest)).map fun (prs, r) =>
          (.dict (prs.foldl (fun d p => dictAssign d p.1 p.2) []), r)
    | [] => none

/-- Parse `"key" : value (, "key" : value)*` followed by the closing brace,
returning the raw pair list. -/
def parseObjItems (fuel : Nat) (cs : List Char) :
    Option (List (String × PyVal) × List Char) :=
  match fuel with
  | 0 => none
  | fuel + 1 =>
    match skipWs cs with
    | '"' :: rest =>
      match parseStrBody fuel [] rest with
      | none => none
      | some (k, rest2) =>
        match skipWs rest2 with
        | ':' :: rest3 =>
          match parseVal fuel rest3 with
          | none => none
          | some (v, rest4) =>
            match skipWs rest4 with
            | ',' :: rest5 =>
              (parseObjItems fuel rest5).map fun (prs, r) => ((k, v) :: prs, r)
            | c :: rest5 =>
              if c = Char.ofNat 125 then some ([(k, v)], rest5) else none
            | [] => none
        | _ => none
    | _ => none

end

/-- `json.loads`: parse a complete JSON document (only trailing whitespace
may follow the value). -/
def parseJson (s : String) : Option PyVal :=
  match parseVal (4 * s.data.length + 4) s.data with
  | some (v, rest) => if skipWs rest = [] then some v else none
  | none => none

/-! ## The `__pace_f` push-call pattern shared by strategies 2 and 3

`re.findall(r'self\.__pace_f\.push\(\[(\d+),"(\w+:.+?)"\]\)</script>', html)`.
`\w`/`\d` are modelled on ASCII.  The lazy `.+?` (dot excludes newline)
extends to the first occurrence of the closing literal `"])</script>`; the
leading `\d+`/`\w+` runs are maximal (no shorter run can be followed by the
required `,`/`:` since those are not word/digit characters). -/

/-- ASCII `\w`. -/
def isWordChar (c : Char) : Bool :=
  c.isAlpha || c.isDigit || c = '_'

/-- The literal that terminates the lazy group: `"])</script>`. -/
def paceClose : List Char :=
  '"' :: ']' :: ')' :: "</script>".data

/-- Consume the lazy `.+?` body: at least one non-newline character, stopping
as soon as the remaining text starts with `paceClose`. -/
def paceBody : Nat → List Char → List Char → Option (List Char × List Char)
  | 0, _, _ => none
  | fuel + 1, acc, cs =>
    match cs with
    | [] => none
    | c :: rest =>
      if c = '\n' then none
      else if startsWithList paceClose rest then
        some ((acc ++ [c] : List Char), rest.drop paceClose.length)
      else paceBody fuel (acc ++ [c] : List Char) rest

/-- Attempt one full pattern match at the current position.  Returns the two
captured groups and the text after `</script>`. -/
def tryPaceMatch (fuel : Nat) (cs : List Char) :
    Option ((List Char × List Char) × List Char) :=
  if startsWithList "self.__pace_f.push([".data cs then
    let afterLit := cs.drop 20
    let digits := afterLit.takeWhile Char.isDigit
    if digits = [] then none
    else
      match afterLit.drop digits.length with
      | ',' :: '"' :: afterQuote =>
        let word := afterQuote.takeWhile isWordChar
        if word = [] then none
        else
          match afterQuote.drop word.length with
          | ':' :: afterColon =>
            match paceBody fuel [] afterColon with
            | some (body, rest) =>
              some ((digits, (word ++ [':'] ++ body : List Char)), rest)
            | none => none
          | _ => none
      | _ => none
  else none

/-- All matches of the push-call pattern, left to right, non-overlapping. -/
def paceScanAux : Nat → List Char → List (List Char × List Char)
  | 0, _ => []
  | _, [] => []
  | fuel + 1, cs@(_ :: rest) =>
    match tryPaceMatch (fuel + 1) cs with
    | some (m, rest') => m :: paceScanAux fuel rest'
    | none => paceScanAux fuel rest

/-- `pattern.findall(html)` for the push-call pattern, as group pairs. -/
def paceMatches (html : String) : List (String × String) :=
  (paceScanAux html.data.length html.data).map fun m =>
    (String.mk m.1, String.mk m.2)

/-- `re.sub(r'^\w+:', '', s)`: strip one leading word-run plus colon. -/
def stripWordColon (s : String) : String :=
  let w := s.data.takeWhile isWordChar
  if w ≠ [] ∧ startsWithList [':'] (s.data.drop w.length) then
    String.mk (s.data.drop (w.length + 1))
  else s

/-- `s.replace('\\"', '"')`: unescape doubled quotation marks. -/
def unescQuotes : List Char → List Char
  | '\\' :: '"' :: rest => '"' :: unescQuotes rest
  | c :: rest => c :: unescQuotes rest
  | [] => []

/-- The first `streamStore`-carrying payload: matched, filtered, prefix
stripped (shared by strategies 2 and 3 before their differing unescape
step). -/
def pacePayloadRaw (html : String) : Option String :=
  match (paceMatches html).filter (fun m => hasSubStr "streamStore" m.2) with
  | [] => none
  | m :: _ => some (stripWordColon m.2)

/-! ## Strategy 2: `JSONWrapperStrategy` -/

/-- `JSONWrapperStrategy.can_extract`:
`re.search(r'__pace_f.*streamStore', html)`, where `.` excludes newline:
some occurrence of `__pace_f` is followed by `streamStore` with no newline
in between. -/
def wrapperCanExtract (html : String) : Bool :=
  go html.data.length html.data
where
  go : Nat → List Char → Bool
    | 0, _ => false
    | _, [] => false
    | fuel + 1, cs@(_ :: rest) =>
      if startsWithList "__pace_f".data cs then
        hasSubList "streamStore".data
            ((cs.drop 8).takeWhile (· ≠ '\n')) ||
          go fuel rest
      else go fuel rest

/-- Python `v == m` for an integer literal `m` (bools are ints in Python;
every other value form compares unequal — see the modelling notes for the
non-integral-number edge). -/
def pyEqInt (v : PyVal) (m : Int) : Bool :=
  match v with
  | .int n => n == m
  | .bool b => (if b then (1 : Int) else 0) == m
  | _ => false

/-- The reverse scan for the wrapper format: the last dict-typed element of
the array that contains a `'state'` key (source lines 159–165). -/
def firstStateItem : List PyVal → Option PyVal
  | [] => none
  | .dict kvs :: rest =>
    match dictLookup "state" kvs with
    | some v => some v
    | none => firstStateItem rest
  | _ :: rest => firstStateItem rest

/-- Result of one iteration of the quality loop over `stream.items()`:
the accumulated qualities dict and the first (truthy) FLV url seen.
`none` models an exception inside the loop body. -/
def qualLoop :
    List (String × PyVal) → List (String × PyVal) × Option PyVal →
    Option (List (String × PyVal) × Option PyVal)
  | [], acc => some acc
  | (k, qd) :: rest, (quals, best) =>
    match qd with
    | .dict qkvs =>
      let mainData := (dictLookup "main" qkvs).getD (.dict [])
      match pyGetD mainData "flv" (.str "") with
      | none => none
      | some flv =>
        if pyFalsy flv then qualLoop rest (quals, best)
        else
          qualLoop rest
            (dictAssign quals k flv, if best.isNone then some flv else best)
    | _ => qualLoop rest (quals, best)

/-- The body of `JSONWrapperStrategy.extract` after `json.loads` succeeded
(source lines 158–216).  `none` covers both the explicit `return None`
paths and any caught exception. -/
def wrapperFromData (data : PyVal) : Option StreamRec :=
  let state? :=
    match data with
    | .list xs => firstStateItem xs.reverse
    | _ => none
  match state? with
  | none => none
  | some state =>
    if pyFalsy state then none
    else
      match pyGetD state "roomStore" (.dict []) with
      | none => none
      | some roomStore =>
        match pyGetD roomStore "roomInfo" (.dict []) with
        | none => none
        | some roomInfo =>
          match pyGetD roomInfo "room" (.dict []),
              pyGetD roomInfo "anchor" (.dict []) with
          | some room, some anchor =>
            match pyGetD room "title" (.str "Douyin Live"),
                pyGetD anchor "nickname" (.str "Unknown"),
                pyGetD room "status" (.int 0) with
            | some title, some author, some status =>
              let isLive := pyEqInt status 2
              match pyGetD state "streamStore" (.dict []) with
              | none => none
              | some streamStore =>
                match pyGetD streamStore "streamData" (.dict []) with
                | none => none
                | some streamData =>
                  match pyGetD streamData "H264_streamData" (.dict []) with
                  | none => none
                  | some h264 =>
                    match pyGetD h264 "stream" (.dict []) with
                    | none => none
                    | some stream =>
                      if pyFalsy stream then none
                      else
                        match stream with
                        | .dict skvs =>
                          match qualLoop skvs ([], none) with
                          | none => none
                          | some (quals, best?) =>
                            match best? with
                            | none => none
                            | some best =>
                              some ⟨best, title, author, isLive, quals⟩
                        | _ => none
            | _, _, _ => none
          | _, _ => none

/-- Strategy 2 payload text: prefix stripped, then `\"` unescaped
(source lines 147–153). -/
def wrapperPayload (html : String) : Option String :=
  (pacePayloadRaw html).map fun s => String.mk (unescQuotes s.data)

/-- `JSONWrapperStrategy.extract` (src/core/extraction_strategies.py:134–220). -/
def jsonWrapperExtract (html : String) : Option StreamRec :=
  match wrapperPayload html with
  | none => none
  | some s =>
    match parseJson s with
    | none => none
    | some data => wrapperFromData data

/-! ## Strategy 3: `LegacyJSONStrategy` -/

/-- `LegacyJSONStrategy.can_extract`: `re.search(r'__pace_f', html)`. -/
def legacyCanExtract (html : String) : Bool :=
  hasSubStr "__pace_f" html

/-- Outcome of the legacy loop body for one list element. -/
inductive LegacyStep where
  | found (r : StreamRec)
  | next
  | abort

/-- The body of the legacy per-item processing (source lines 260–294):
`found` returns the record, `next` falls through to the next list element,
`abort` models an exception (which ends the whole extraction as `None`). -/
def legacyBody (state : PyVal) : LegacyStep :=
  match pyGetD state "roomStore" (.dict []) with
  | none => .abort
  | some roomStore =>
    match pyGetD roomStore "roomInfo" (.dict []) with
    | none => .abort
    | some roomInfo =>
      match pyGetD roomInfo "room" (.dict []) with
      | none => .abort
      | some room =>
        match pyGetD state "streamStore" (.dict []) with
        | none => .abort
        | some streamStore =>
          match pyGetD streamStore "streamData" (.dict []) with
          | none => .abort
          | some streamData =>
            match pyGetD streamData "H264_streamData" (.dict []) with
            | none => .abort
            | some h264 =>
              match pyGetD h264 "stream" (.dict []) with
              | none => .abort
              | some stream =>
                if pyFalsy stream then .next
                else
                  match stream with
                  | .dict skvs =>
                    match qualLoop skvs ([], none) with
                    | none => .abort
                    | some (quals, best?) =>
                      match best? with
                      | none => .next
                      | some best =>
                        match pyGetD room "title" (.str "Douyin Live") with
                        | none => .abort
                        | some title =>
                          match pyGetD roomInfo "anchor" (.dict []) with
                          | none => .abort
                          | some anchor =>
                            match pyGetD anchor "nickname" (.str "Unknown") with
                            | none => .abort
                            | some author =>
                              .found ⟨best, title, author, true, quals⟩
                  | _ => .abort

/-- The forward iteration of `LegacyJSONStrategy.extract` over the list
elements (source lines 260–297). -/
def legacyLoop : List PyVal → Option StreamRec
  | [] => none
  | item :: rest =>
    match item with
    | .dict kvs =>
      match dictLookup "state" kvs with
      | some state =>
        match legacyBody state with
        | .found r => some r
        | .next => legacyLoop rest
        | .abort => none
      | none => legacyLoop rest
    | _ => legacyLoop rest

/-- The body of `LegacyJSONStrategy.extract` after `json.loads` succeeded:
the payload must be a plain list (source lines 256–297). -/
def legacyFromData (data : PyVal) : Option StreamRec :=
  match data with
  | .list xs => legacyLoop xs
  | _ => none

/-- `LegacyJSONStrategy.extract` (src/core/extraction_strategies.py:237–301).
Unlike strategy 2, the legacy strategy does not unescape `\"` before
parsing. -/
def legacyExtract (html : String) : Option StreamRec :=
  match pacePayloadRaw html with
  | none => none
  | some s =>
    match parseJson s with
    | none => none
    | some data => legacyFromData data

/-! ## The adaptive dispatcher: `AdaptiveExtractor` -/

/-- One registered strategy: name, priority, pre-check and extractor
(the `ExtractionStrategy` interface). -/
structure Strategy where
  name : String
  priority : Nat
  canExtract : String → Bool
  extract : String → Option StreamRec

/-- Strategy 1 as registered. -/
def directStrategy : Strategy :=
  ⟨"DirectURLStrategy", 1, directCanExtract, directExtract⟩

/-- Strategy 2 as registered. -/
def wrapperStrategy : Strategy :=
  ⟨"JSONWrapperStrategy", 2, wrapperCanExtract, jsonWrapperExtract⟩

/-- Strategy 3 as registered. -/
def legacyStrategy : Strategy :=
  ⟨"LegacyJSONStrategy", 3, legacyCanExtract, legacyExtract⟩

/-- The registered strategy list after the constructor's sort by priority
(the declared priorities 1 < 2 < 3 leave the declaration order unchanged). -/
def strategyList : List Strategy :=
  [directStrategy, wrapperStrategy, legacyStrategy]

/-- `AdaptiveExtractor._load_cache` applied to the cache file's content
(`none` = missing file).  A parse error or a non-dict/missing/non-string
`last_working_strategy` leaves the cached name unset, never fails. -/
def loadCache (fileContent : Option String) : Option String :=
  match fileContent with
  | none => none
  | some txt =>
    match parseJson txt with
    | some (.dict kvs) =>
      match dictLookup "last_working_strategy" kvs with
      | some (.str s) => some s
      | _ => none
    | _ => none

/-- The fallback loop of `AdaptiveExtractor.extract` (source lines 369–388):
strategies in priority order, skipping the cached name, skipping failed
pre-checks, stopping at the first non-`none` extract.  Returns the result,
the names of the strategies whose `extract` ran (in call order), and the
updated `last_working_strategy`. -/
def dispatchLoop (lastName : Option String) (html : String) :
    List Strategy → Option StreamRec × List String × Option String
  | [] => (none, [], lastName)
  | s :: rest =>
    if lastName = some s.name then dispatchLoop lastName html rest
    else if s.canExtract html then
      match s.extract html with
      | some r => (some r, [s.name], some s.name)
      | none =>
        let (res, trace, lw) := dispatchLoop lastName html rest
        (res, s.name :: trace, lw)
    else dispatchLoop lastName html rest

/-- The cached-strategy lookup of the phase-1 `for`/`break` loop. -/
def findStrategy (nm : String) : List Strategy → Option Strategy
  | [] => none
  | s :: rest => if s.name = nm then some s else findStrategy nm rest

/-- `AdaptiveExtractor.extract` (source lines 349–388): try the cached
strategy first, then fall back to the priority-ordered loop.  Returns the
result, the trace of `extract` invocations, and the updated cache entry. -/
def adaptiveExtract (lastName : Option String) (html : String) :
    Option StreamRec × List String × Option String :=
  match lastName with
  | some nm =>
    match findStrategy nm strategyList with
    | some s =>
      if s.canExtract html then
        match s.extract html with
        | some r => (some r, [s.name], lastName)
        | none =>
          let (res, trace, lw) := dispatchLoop lastName html strategyList
          (res, s.name :: trace, lw)
      else dispatchLoop lastName html strategyList
    | none => dispatchLoop lastName html strategyList
  | none => dispatchLoop none html strategyList

/-! ## Fetch-and-orchestrate wrappers -/

/-- `DouyinExtractor._is_captcha_page` (both variants):
`'TTGCaptcha' in html and len(html) < 10000`. -/
def isCaptchaPage (html : String) : Bool :=
  hasSubStr "TTGCaptcha" html && html.length < 10000

/-- `str.replace(pat, rep)`: left-to-right, non-overlapping. -/
def replaceSubAux (pat rep : List Char) : Nat → List Char → List Char
  | 0, cs => cs
  | _, [] => []
  | fuel + 1, cs@(c :: rest) =>
    if startsWithList pat cs then
      rep ++ replaceSubAux pat rep fuel (cs.drop pat.length)
    else c :: replaceSubAux pat rep fuel rest

/-- `str.replace` on strings. -/
def replaceSub (pat rep s : String) : String :=
  String.mk (replaceSubAux pat.data rep.data s.data.length s.data)

/-- UTF-8 bytes of one scalar value. -/
def utf8Bytes (c : Char) : List Nat :=
  let n := c.toNat
  if n < 0x80 then [n]
  else if n < 0x800 then [0xc0 + n / 64, 0x80 + n % 64]
  else if n < 0x10000 then
    [0xe0 + n / 4096, 0x80 + n / 64 % 64, 0x80 + n % 64]
  else
    [0xf0 + n / 262144, 0x80 + n / 4096 % 64, 0x80 + n / 64 % 64,
      0x80 + n % 64]

/-- A scalar value from a codepoint, replacing invalid ones with U+FFFD. -/
def charOfCodepoint (n : Nat) : Char :=
  if h : n < 0xd800 ∨ 0xdfff < n ∧ n < 0x110000 then Char.ofNatAux n h
  else '�'

/-- Decode a UTF-8 byte run, one replacement character per malformed byte
(an approximation of `errors='replace'`, see the modelling notes). -/
def utf8Decode : Nat → List Nat → List Char
  | 0, _ => []
  | _, [] => []
  | fuel + 1, b :: rest =>
    if b < 0x80 then charOfCodepoint b :: utf8Decode fuel rest
    else if 0xc2 ≤ b ∧ b ≤ 0xdf then
      match rest with
      | b2 :: rest2 =>
        if 0x80 ≤ b2 ∧ b2 ≤ 0xbf then
          charOfCodepoint ((b - 0xc0) * 64 + (b2 - 0x80)) ::
            utf8Decode fuel rest2
        else '�' :: utf8Decode fuel rest
      | [] => ['�']
    else if 0xe0 ≤ b ∧ b ≤ 0xef then
      match rest with
      | b2 :: b3 :: rest3 =>
        if 0x80 ≤ b2 ∧ b2 ≤ 0xbf ∧ 0x80 ≤ b3 ∧ b3 ≤ 0xbf then
          charOfCodepoint
              ((b - 0xe0) * 4096 + (b2 - 0x80) * 64 + (b3 - 0x80)) ::
            utf8Decode fuel rest3
        else '�' :: utf8Decode fuel rest
      | _ => '�' :: utf8Decode fuel rest
    else if 0xf0 ≤ b ∧ b ≤ 0xf4 then
      match rest with
      | b2 :: b3 :: b4 :: rest4 =>
        if 0x80 ≤ b2 ∧ b2 ≤ 0xbf ∧ 0x80 ≤ b3 ∧ b3 ≤ 0xbf ∧
            0x80 ≤ b4 ∧ b4 ≤ 0xbf then
          charOfCodepoint
              ((b - 0xf0) * 262144 + (b2 - 0x80) * 4096 +
                (b3 - 0x80) * 64 + (b4 - 0x80)) ::
            utf8Decode fuel rest4
        else '�' :: utf8Decode fuel rest
      | _ => '�' :: utf8Decode fuel rest
    else '�' :: utf8Decode fuel rest

/-- `urllib.parse.unquote`: decode runs of `%XX` hex pairs as UTF-8 byte
sequences; a `%` not followed by two hex digits passes through. -/
def unquoteAux : Nat → List Char → List Char
  | 0, cs => cs
  | _, [] => []
  | fuel + 1, cs@('%' :: h1 :: h2 :: rest) =>
    match hexVal h1, hexVal h2 with
    | some x, some y =>
      let b := x * 16 + y
      match unquoteRun fuel rest with
      | (bytes, rest') =>
        utf8Decode (b :: bytes).length.succ (b :: bytes) ++
          unquoteAux fuel rest'
    | _, _ =>
      match cs with
      | c :: rest' => c :: unquoteAux fuel rest'
      | [] => []
  | fuel + 1, c :: rest => c :: unquoteAux fuel rest
where
  /-- Collect the remaining consecutive `%XX` bytes of a run. -/
  unquoteRun : Nat → List Char → List Nat × List Char
    | 0, cs => ([], cs)
    | fuel + 1, cs@('%' :: h1 :: h2 :: rest) =>
      match hexVal h1, hexVal h2 with
      | some x, some y =>
        let (bytes, rest') := unquoteRun fuel rest
        ((x * 16 + y) :: bytes, rest')
      | _, _ => ([], cs)
    | _, cs => ([], cs)

/-- `urllib.parse.unquote` on strings. -/
def unquote (s : String) : String :=
  String.mk (unquoteAux s.data.length s.data)

/-- `DouyinExtractor._decode_url` (web backend, lines 126–133). -/
def decodeUrl (url : String) : String :=
  let url := replaceSub "\\u0026" "&" url
  let url := replaceSub "\\u003d" "=" url
  let url := replaceSub "\\u003f" "?" url
  let url := replaceSub "\\u002F" "/" url
  let url := replaceSub "\\/" "/" url
  unquote url

/-- ASCII `str.lower` (the CJK offline keywords are unaffected by case
mapping). -/
def asciiLower (s : String) : String :=
  String.mk (s.data.map Char.toLower)

/-- `DouyinExtractor._check_offline` (web backend, lines 139–142). -/
def checkOffline (html : String) : Bool :=
  ["未开播", "直播已结束", "has ended", "is_live\":false"].any fun kw =>
    hasSubStr kw (asciiLower html)

/-- `DouyinExtractor._extract_offline_info` (web backend, lines 296–307). -/
def offlineInfoRec (html : String) : StreamRec :=
  ⟨.null, .str ((titleScan html).getD "Offline Stream"),
    .str ((nicknameScan html).getD "Unknown"), false, []⟩

/-- The result taxonomy of the web backend's `extract_stream`.  Distinct
constructors model the distinct dict-shaped signals the source returns. -/
inductive WebResult where
  | captchaRequired (url : String)
  | authRequired
  | streamFound (r : StreamRec)
  | offlineInfo (r : StreamRec)
  | noData
  | genericError

/-- The post-dispatch URL decoding of the web backend (lines 104–109):
decode `result['url']` when it is truthy.  `none` models the
`AttributeError` of `_decode_url` on a truthy non-string url value, which
the outer `except` turns into an error dict. -/
def applyUrlDecode (r : StreamRec) : Option StreamRec :=
  if pyFalsy r.url then some r
  else
    match r.url with
    | .str u => some { r with url := .str (decodeUrl u) }
    | _ => none

/-- `DouyinExtractor.extract_stream` of the web backend
(src/web/backend/core/douyin_extractor.py:58–124) on fetched HTML:
CAPTCHA gate, minimum-size gate, then the adaptive dispatcher.  Alongside
the result it returns the trace of strategy `extract` invocations. -/
def webExtractStream (lastName : Option String) (roomUrl html : String) :
    WebResult × List String :=
  if isCaptchaPage html then (.captchaRequired roomUrl, [])
  else if html.length < 10000 then (.authRequired, [])
  else
    match adaptiveExtract lastName html with
    | (some r, trace, _) =>
      match applyUrlDecode r with
      | some r' => (.streamFound r', trace)
      | none => (.genericError, trace)
    | (none, trace, _) =>
      if checkOffline html then (.offlineInfo (offlineInfoRec html), trace)
      else (.noData, trace)

/-- `DouyinExtractor.extract_stream_url` of the desktop variant
(src/desktop/core/douyin_extractor.py:39–107) on fetched HTML.
`resolvedHtml` stands for the out-of-band CAPTCHA-resolution collaborator:
`none` models a solver failure (the `except` returning `None`), `some h`
the re-fetched page after resolution.  The small-HTML gate returns plain
`None` — the same value as the all-strategies-failed outcome. -/
def desktopExtractStreamUrl (html : String) (resolvedHtml : Option String)
    (lastName : Option String) : Option StreamRec × List String :=
  if isCaptchaPage html then
    match resolvedHtml with
    | none => (none, [])
    | some h2 => afterCaptcha h2
  else afterCaptcha html
where
  /-- Size gate and dispatch, shared by the direct and post-CAPTCHA paths. -/
  afterCaptcha (h : String) : Option StreamRec × List String :=
    if h.length < 10000 then (none, [])
    else
      match adaptiveExtract lastName h with
      | (res, trace, _) => (res, trace)

/-! ## Concrete fixtures

Small HTML fixtures used by the witnesses and counterexamples below.
JSON braces inside string literals are written `\x7b` / `\x7d`. -/

/-- Two quoted FLV URLs; the first carries no quality token, the second
carries `_hd.`. -/
def plainThenHdHtml : String :=
  "\"https://x/plain.flv\"\"https://x/a_hd.flv\""

/-- An `_hd.` M3U8 URL appearing in the document before an `_hd.` FLV URL. -/
def m3u8BeforeFlvHtml : String :=
  "\"https://x/a_hd.m3u8\" \"https://x/b_hd.flv\""

/-- Scenario A of the spec: `_hd.` then `_sd.` FLV URLs. -/
def hdSdHtml : String :=
  "\"https://x.com/a_hd.flv\" \"https://x.com/a_sd.flv\""

/-- A push call whose payload mentions `streamStore` but is truncated,
non-JSON text. -/
def badJsonHtml : String :=
  "self.__pace_f.push([1,\"d:\x7bstreamStore\"])</script>"

/-- HTML that passes all three pre-checks and on which strategy 1
succeeds. -/
def allCanHtml : String :=
  "\"http://a/b_hd.flv\" self.__pace_f streamStore"

/-- The state JSON of a live room (`status` = 2) with one `origin` FLV. -/
def liveStateJson : String :=
  "\x7b\"roomStore\":\x7b\"roomInfo\":\x7b\"room\":\x7b\"title\":\"T\"," ++
  "\"status\":2\x7d,\"anchor\":\x7b\"nickname\":\"A\"\x7d\x7d\x7d," ++
  "\"streamStore\":\x7b\"streamData\":\x7b\"H264_streamData\":" ++
  "\x7b\"stream\":\x7b\"origin\":\x7b\"main\":\x7b\"flv\":" ++
  "\"http://u_or.flv\"\x7d\x7d\x7d\x7d\x7d\x7d\x7d"

/-- The same state with `status` = 4 (not live). -/
def offStateJson : String :=
  "\x7b\"roomStore\":\x7b\"roomInfo\":\x7b\"room\":\x7b\"title\":\"T\"," ++
  "\"status\":4\x7d,\"anchor\":\x7b\"nickname\":\"A\"\x7d\x7d\x7d," ++
  "\"streamStore\":\x7b\"streamData\":\x7b\"H264_streamData\":" ++
  "\x7b\"stream\":\x7b\"origin\":\x7b\"main\":\x7b\"flv\":" ++
  "\"http://u_or.flv\"\x7d\x7d\x7d\x7d\x7d\x7d\x7d"

/-- A push-call document embedding a state JSON in the wrapped-array
format `prefix:["$","$L12",null,{"state": ...}]`. -/
def mkWrappedHtml (stateJson : String) : String :=
  "<script>self.__pace_f.push([1,\"d:[\"$\",\"$L12\",null," ++
    "\x7b\"state\":" ++ stateJson ++ "\x7d]\"])</script>"

/-- A push-call document embedding a state JSON in the legacy unwrapped
format `prefix:[{"state": ...}]`. -/
def mkUnwrappedHtml (stateJson : String) : String :=
  "<script>self.__pace_f.push([7,\"e:[\x7b\"state\":" ++ stateJson ++
    "\x7d]\"])</script>"

/-- Wrapped fixture, live. -/
def wrappedLiveHtml : String := mkWrappedHtml liveStateJson

/-- Wrapped fixture, status 4. -/
def wrappedOffHtml : String := mkWrappedHtml offStateJson

/-- Unwrapped fixture, live. -/
def unwrappedLiveHtml : String := mkUnwrappedHtml liveStateJson

/-- Unwrapped fixture, status 4. -/
def unwrappedOffHtml : String := mkUnwrappedHtml offStateJson

/-- A persisted cache file naming the legacy strategy. -/
def legacyCacheJson : String :=
  "\x7b\"last_working_strategy\": \"LegacyJSONStrategy\"," ++
  " \"last_success\": \"2025-01-01T00:00:00\"\x7d"

/-- A short challenge page. -/
def capHtml : String := "<html>TTGCaptcha slide to verify</html>"

/-- A short page without the challenge marker. -/
def tinyHtml : String := "<html>login please</html>"

/-! ## Claim-side comparison definitions -/

/-- The candidate list of strategy 1 as the code builds it:
all FLV matches in order of appearance, then all M3U8 matches in order of
appearance (`flv_urls + m3u8_urls`). -/
def directCandidates (html : String) : List String :=
  flvUrls html ++ m3u8Urls html

/-- Modelled from the claim's wording for C9: the quoted streaming URLs of
either container format in **document order** (one left-to-right scan that
accepts both suffixes), used to compare against the code's
FLV-before-M3U8 candidate order. -/
def docOrderScanAux : Nat → List Char → List (List Char)
  | 0, _ => []
  | _, [] => []
  | fuel + 1, c :: rest =>
    if c = '"' then
      match (tryQuotedUrl ".flv".data rest).orElse
          (fun _ => tryQuotedUrl ".m3u8".data rest) with
      | some (url, rest') => url :: docOrderScanAux fuel rest'
      | none => docOrderScanAux fuel rest
    else docOrderScanAux fuel rest

/-- Modelled from the claim's wording for C9: candidate URLs in document
order. -/
def docOrderCandidates (html : String) : List String :=
  (docOrderScanAux html.data.length html.data).map String.mk

/-- First URL in a list whose quality token is `t`. -/
def firstWithToken (t : String) : List String → Option String
  | [] => none
  | u :: rest =>
    if qualityToken u.data = some t then some u else firstWithToken t rest

/-- The room-status projection of the wrapped payload, following exactly the
navigation of `JSONWrapperStrategy.extract` (source lines 159–178):
reverse-scan for the state, then
`roomStore → roomInfo → room → status` with the source's defaults.
`none` models the paths on which the strategy itself returns `None` or
raises before reading `status`. -/
def wrappedRoomStatus (data : PyVal) : Option PyVal :=
  let state? :=
    match data with
    | .list xs => firstStateItem xs.reverse
    | _ => none
  match state? with
  | none => none
  | some state =>
    if pyFalsy state then none
    else
      match pyGetD state "roomStore" (.dict []) with
      | none => none
      | some roomStore =>
        match pyGetD roomStore "roomInfo" (.dict []) with
        | none => none
        | some roomInfo =>
          match pyGetD roomInfo "room" (.dict []) with
          | none => none
          | some room => pyGetD room "status" (.int 0)

/-- The wrapped JSON data of strategy 2, parsed. -/
def wrapperParsedData (html : String) : Option PyVal :=
  (wrapperPayload html).bind parseJson

/-- The legacy JSON data of strategy 3, parsed. -/
def legacyParsedData (html : String) : Option PyVal :=
  (pacePayloadRaw html).bind parseJson

/-- The wrapped-array encoding of a logical room/stream payload, as in the
source's wrapper-format comment: `["$", "$L12", null, {"state": p}]`. -/
def wrapEncoding (p : PyVal) : PyVal :=
  .list [.str "$", .str "$L12", .null, .dict [("state", p)]]

/-- The equivalent unwrapped-list encoding of the same payload:
`[{"state": p}]`. -/
def unwrapEncoding (p : PyVal) : PyVal :=
  .list [.dict [("state", p)]]

/-- The parsed state payload of the status-4 fixtures. -/
def offStatePv : PyVal :=
  .dict [("roomStore", .dict [("roomInfo", .dict [
      ("room", .dict [("title", .str "T"), ("status", .int 4)]),
      ("anchor", .dict [("nickname", .str "A")])])]),
    ("streamStore", .dict [("streamData", .dict [("H264_streamData",
      .dict [("stream", .dict [("origin", .dict [("main",
        .dict [("flv", .str "http://u_or.flv")])])])])])])]

/-- The parsed state payload of the status-2 fixtures. -/
def liveStatePv : PyVal :=
  .dict [("roomStore", .dict [("roomInfo", .dict [
      ("room", .dict [("title", .str "T"), ("status", .int 2)]),
      ("anchor", .dict [("nickname", .str "A")])])]),
    ("streamStore", .dict [("streamData", .dict [("H264_streamData",
      .dict [("stream", .dict [("origin", .dict [("main",
        .dict [("flv", .str "http://u_or.flv")])])])])])])]

/-! ## Well-formedness of parsed Python values

Python dicts cannot carry duplicate keys; every dict produced by
`parseJson` (built with `dictAssign`) has pairwise-distinct keys.  `PyWF`
captures this invariant recursively. -/

/-- All dicts reachable inside a value have pairwise-distinct keys. -/
inductive PyWF : PyVal → Prop where
  | null : PyWF .null
  | bool (b : Bool) : PyWF (.bool b)
  | int (n : Int) : PyWF (.int n)
  | numRaw (s : String) : PyWF (.numRaw s)
  | str (s : String) : PyWF (.str s)
  | list {xs : List PyVal} (h : ∀ v ∈ xs, PyWF v) : PyWF (.list xs)
  | dict {kvs : List (String × PyVal)} (hk : (kvs.map Prod.fst).Nodup)
      (hv : ∀ p ∈ kvs, PyWF p.2) : PyWF (.dict kvs)

/-! ## C4: cold-dispatcher priority order -/

/-- C4: on HTML passing all three pre-checks, a dispatcher with an empty
cache invokes the strategies' `extract` in ascending priority order —
Direct-URL, then Wrapped-state-JSON, then Legacy-JSON — and stops at the
first non-null record, invoking no further strategy. -/
theorem cold_dispatcher_priority_order (html : String)
    (h1 : directCanExtract html = true) (h2 : wrapperCanExtract html = true)
    (h3 : legacyCanExtract html = true) :
    (∀ r, directExtract html = some r →
      adaptiveExtract none html =
        (some r, ["DirectURLStrategy"], some "DirectURLStrategy")) ∧
    (directExtract html = none → ∀ r, jsonWrapperExtract html = some r →
      adaptiveExtract none html =
        (some r, ["DirectURLStrategy", "JSONWrapperStrategy"],
          some "JSONWrapperStrategy")) ∧
    (directExtract html = none → jsonWrapperExtract html = none →
      ∀ r, legacyExtract html = some r →
      adaptiveExtract none html =
        (some r,
          ["DirectURLStrategy", "JSONWrapperStrategy", "LegacyJSONStrategy"],
          some "LegacyJSONStrategy")) ∧
    (directExtract html = none → jsonWrapperExtract html = none →
      legacyExtract html = none →
      adaptiveExtract none html =
        (none,
          ["DirectURLStrategy", "JSONWrapperStrategy", "LegacyJSONStrategy"],
          none)) := by
  refine ⟨?_, ?_, ?_, ?_⟩
  · intro r hr
    simp [adaptiveExtract, strategyList, dispatchLoop, directStrategy,
      wrapperStrategy, legacyStrategy, h1, hr]
  · intro hd r hr
    simp [adaptiveExtract, strategyList, dispatchLoop, directStrategy,
      wrapperStrategy, legacyStrategy, h1, h2, hd, hr]
  · intro hd hw r hr
    simp [adaptiveExtract, strategyList, dispatchLoop, directStrategy,
      wrapperStrategy, legacyStrategy, h1, h2, h3, hd, hw, hr]
  · intro hd hw hl
    simp [adaptiveExtract, strategyList, dispatchLoop, directStrategy,
      wrapperStrategy, legacyStrategy, h1, h2, h3, hd, hw, hl]

/-- Witness for C4 on a fixture passing all three pre-checks, on which
strategy 1 succeeds immediately. -/
theorem cold_dispatcher_priority_order_witness :
    adaptiveExtract none allCanHtml =
      (some ⟨.str "http://a/b_hd.flv", .str "Douyin Live", .str "Unknown",
        true, [("hd", .str "http://a/b_hd.flv")]⟩,
       ["DirectURLStrategy"], some "DirectURLStrategy") :=
  (cold_dispatcher_priority_order allCanHtml (by decide) (by decide)
      (by decide)).1 _ (by rfl)

/-! ## C5: the cached strategy is attempted first -/

/-- C5: if the cache (in memory or reloaded from the persisted cache file)
names strategy `S`, the next dispatch attempts `S` first: when `S`'s
pre-check passes and its `extract` returns a record, that record is
returned, `S` is the only strategy whose `extract` ran, and the cache entry
still names `S`. -/
theorem cached_strategy_tried_first (file : Option String) (html : String)
    (s : Strategy) (r : StreamRec) (hs : s ∈ strategyList)
    (hc : loadCache file = some s.name)
    (hcan : s.canExtract html = true) (hx : s.extract html = some r) :
    adaptiveExtract (loadCache file) html = (some r, [s.name], some s.name) := by
  rw [hc]
  simp only [strategyList, List.mem_cons, List.not_mem_nil, or_false] at hs
  rcases hs with rfl | rfl | rfl <;>
    simp_all [adaptiveExtract, findStrategy, strategyList, directStrategy,
      wrapperStrategy, legacyStrategy]

set_option maxRecDepth 100000 in
/-- Witness for C5: a persisted cache file naming the legacy strategy makes
the legacy strategy run first and win on a legacy-format fixture. -/
theorem cached_strategy_tried_first_witness :
    adaptiveExtract (loadCache (some legacyCacheJson)) unwrappedLiveHtml =
      (some ⟨.str "http://u_or.flv", .str "T", .str "A", true,
        [("origin", .str "http://u_or.flv")]⟩,
       ["LegacyJSONStrategy"], some "LegacyJSONStrategy") :=
  cached_strategy_tried_first (some legacyCacheJson) unwrappedLiveHtml
    legacyStrategy _ (by simp [strategyList]) (by rfl) (by decide) (by rfl)

/-! ## C6: totality and null on degenerate inputs -/

/-- C6: each strategy's `extract` is a total function into
`Option StreamRec` (the source's `except` blocks convert every internal
parse exception into `None`, modelled by `none` — no exception can reach
the caller), and on the empty string, as well as on a marker-bearing
document whose embedded payload is malformed truncated JSON, every strategy
returns `none`. -/
theorem extract_total_and_null_on_degenerate :
    directExtract "" = none ∧ jsonWrapperExtract "" = none ∧
    legacyExtract "" = none ∧ directExtract badJsonHtml = none ∧
    jsonWrapperExtract badJsonHtml = none ∧ legacyExtract badJsonHtml = none :=
  ⟨rfl, rfl, rfl, rfl, rfl, rfl⟩

/-! ## C7: challenge classification and short-circuit -/

/-- C7: the challenge classification holds exactly when the `TTGCaptcha`
marker is present and the document length is below the 10 000 threshold;
when it holds, the web fetch wrapper returns the `captcha_required` signal
carrying the original room URL and no strategy `extract` is invoked. -/
theorem captcha_classification_and_short_circuit (lastName : Option String)
    (url html : String) :
    (isCaptchaPage html = true ↔
      (hasSubStr "TTGCaptcha" html = true ∧ html.length < 10000)) ∧
    (isCaptchaPage html = true →
      webExtractStream lastName url html = (.captchaRequired url, [])) := by
  constructor
  · simp [isCaptchaPage]
  · intro h
    simp [webExtractStream, h]

/-- Witness for C7 on a short challenge page. -/
theorem captcha_classification_and_short_circuit_witness :
    webExtractStream none "https://live.douyin.com/1" capHtml =
      (.captchaRequired "https://live.douyin.com/1", []) :=
  (captcha_classification_and_short_circuit none "https://live.douyin.com/1"
      capHtml).2 (by decide)

/-! ## C8: small non-challenge HTML -/

/-- C8 counterexample: the desktop fetch-and-orchestrate wrapper
(src/desktop/core/douyin_extractor.py:86–91), one of the two wrappers the
claim cites, returns plain `None` — the same value as the
all-strategies-exhausted outcome, not a distinguished `auth_required`
signal — on a short non-challenge page (no strategy is invoked either). -/
theorem small_html_auth_required_counterexample :
    desktopExtractStreamUrl tinyHtml none none = (none, []) := by rfl

/-- C8 amended: on fetched HTML shorter than the 10 000 threshold and not
classified as a challenge, the **web backend** wrapper returns the
distinguished `auth_required` signal (a constructor distinct from
`captcha_required` and from the no-stream-data result) without invoking any
strategy, while the **desktop** variant returns plain null without invoking
any strategy. -/
theorem small_html_auth_signal_amended (lastName resolved : Option String)
    (url html : String) (hnc : isCaptchaPage html = false)
    (hsmall : html.length < 10000) :
    webExtractStream lastName url html = (.authRequired, []) ∧
    desktopExtractStreamUrl html resolved lastName = (none, []) := by
  constructor
  · simp [webExtractStream, hnc, hsmall]
  · simp [desktopExtractStreamUrl, hnc, desktopExtractStreamUrl.afterCaptcha,
      hsmall]

/-- Witness for the amended C8 on a short login page. -/
theorem small_html_auth_signal_amended_witness :
    webExtractStream none "u" tinyHtml = (.authRequired, []) ∧
    desktopExtractStreamUrl tinyHtml (some capHtml) none = (none, []) :=
  small_html_auth_signal_amended none (some capHtml) "u" tinyHtml (by decide)
    (by decide)

/-! ## Inversion and construction lemmas for the JSON strategies -/

/-- `pyGetD` fails only by the receiver not being a dict, uniformly in the
key and default. -/
theorem pyGetD_none_congr {v : PyVal} {k d : _} (k' : String) (d' : PyVal)
    (h : pyGetD v k d = none) : pyGetD v k' d' = none := by
  cases v <;> simp_all [pyGetD]

/-- `pyGetD` succeeds only by the receiver being a dict, uniformly in the
key and default. -/
theorem pyGetD_some_of_some {v : PyVal} {k d : _} {w : PyVal}
    (k' : String) (d' : PyVal) (h : pyGetD v k d = some w) :
    ∃ w', pyGetD v k' d' = some w' := by
  cases v <;> simp_all [pyGetD]

/-- Inversion of a successful `JSONWrapperStrategy` body: the full chain of
navigation equations behind `wrapperFromData data = some r`. -/
theorem wrapperFromData_inv (data : PyVal) (r : StreamRec)
    (h : wrapperFromData data = some r) :
    ∃ xs state roomStore roomInfo room anchor title author status
      streamStore streamData h264 skvs quals best,
      data = .list xs ∧
      firstStateItem xs.reverse = some state ∧
      pyFalsy state = false ∧
      pyGetD state "roomStore" (.dict []) = some roomStore ∧
      pyGetD roomStore "roomInfo" (.dict []) = some roomInfo ∧
      pyGetD roomInfo "room" (.dict []) = some room ∧
      pyGetD roomInfo "anchor" (.dict []) = some anchor ∧
      pyGetD room "title" (.str "Douyin Live") = some title ∧
      pyGetD anchor "nickname" (.str "Unknown") = some author ∧
      pyGetD room "status" (.int 0) = some status ∧
      pyGetD state "streamStore" (.dict []) = some streamStore ∧
      pyGetD streamStore "streamData" (.dict []) = some streamData ∧
      pyGetD streamData "H264_streamData" (.dict []) = some h264 ∧
      pyGetD h264 "stream" (.dict []) = some (.dict skvs) ∧
      pyFalsy (.dict skvs) = false ∧
      qualLoop skvs ([], none) = some (quals, some best) ∧
      r = ⟨best, title, author, pyEqInt status 2, quals⟩ := by
  simp only [wrapperFromData] at h
  split at h
  · exact Option.noConfusion h
  next state hst =>
  split at h
  · exact Option.noConfusion h
  next hf =>
  split at h
  · exact Option.noConfusion h
  next roomStore hRS =>
  split at h
  · exact Option.noConfusion h
  next roomInfo hRI =>
  split at h
  next room anchor hRoom hAnchor =>
    split at h
    next title author status hTitle hNick hSt =>
      split at h
      · exact Option.noConfusion h
      next streamStore hSS =>
      split at h
      · exact Option.noConfusion h
      next streamData hSD =>
      split at h
      · exact Option.noConfusion h
      next h264 hH =>
      split at h
      · exact Option.noConfusion h
      next stream hStr =>
      split at h
      · exact Option.noConfusion h
      next hsf =>
      split at h
      next skvs =>
        split at h
        · exact Option.noConfusion h
        next quals bestOpt hQ =>
        split at h
        · exact Option.noConfusion h
        next best =>
        cases h
        -- the state? match forces `data` to be a list
        cases data with
        | list xs =>
          exact ⟨xs, state, roomStore, roomInfo, room, anchor, title, author,
            status, streamStore, streamData, h264, skvs, quals, best, rfl,
            hst, by simpa using hf, hRS, hRI, hRoom, hAnchor, hTitle, hNick,
            hSt, hSS, hSD, hH, hStr, by simpa using hsf, hQ, rfl⟩
        | null => exact Option.noConfusion hst
        | bool b => exact Option.noConfusion hst
        | int n => exact Option.noConfusion hst
        | numRaw s => exact Option.noConfusion hst
        | str s => exact Option.noConfusion hst
        | dict kvs => exact Option.noConfusion hst
      next hnd => exact Option.noConfusion h
    next hmiss => exact Option.noConfusion h
  next hmiss2 => exact Option.noConfusion h

/-- Construction of a successful `JSONWrapperStrategy` body from the chain
of navigation equations. -/
theorem wrapperFromData_eq_some (xs : List PyVal)
    (state roomStore roomInfo room anchor title author status streamStore
      streamData h264 : PyVal) (skvs quals : List (String × PyVal))
    (best : PyVal)
    (hst : firstStateItem xs.reverse = some state)
    (hf : pyFalsy state = false)
    (hRS : pyGetD state "roomStore" (.dict []) = some roomStore)
    (hRI : pyGetD roomStore "roomInfo" (.dict []) = some roomInfo)
    (hRoom : pyGetD roomInfo "room" (.dict []) = some room)
    (hAnchor : pyGetD roomInfo "anchor" (.dict []) = some anchor)
    (hTitle : pyGetD room "title" (.str "Douyin Live") = some title)
    (hNick : pyGetD anchor "nickname" (.str "Unknown") = some author)
    (hSt : pyGetD room "status" (.int 0) = some status)
    (hSS : pyGetD state "streamStore" (.dict []) = some streamStore)
    (hSD : pyGetD streamStore "streamData" (.dict []) = some streamData)
    (hH : pyGetD streamData "H264_streamData" (.dict []) = some h264)
    (hStr : pyGetD h264 "stream" (.dict []) = some (.dict skvs))
    (hsf : pyFalsy (.dict skvs) = false)
    (hQ : qualLoop skvs ([], none) = some (quals, some best)) :
    wrapperFromData (.list xs) =
      some ⟨best, title, author, pyEqInt status 2, quals⟩ := by
  simp [wrapperFromData, hst, hf, hRS, hRI, hRoom, hAnchor, hTitle, hNick,
    hSt, hSS, hSD, hH, hStr, hsf, hQ]

/-- Inversion of a `found` outcome of the legacy per-item body. -/
theorem legacyBody_found_inv (state : PyVal) (r : StreamRec)
    (h : legacyBody state = .found r) :
    ∃ roomStore roomInfo room streamStore streamData h264 skvs quals best
      title anchor author,
      pyGetD state "roomStore" (.dict []) = some roomStore ∧
      pyGetD roomStore "roomInfo" (.dict []) = some roomInfo ∧
      pyGetD roomInfo "room" (.dict []) = some room ∧
      pyGetD state "streamStore" (.dict []) = some streamStore ∧
      pyGetD streamStore "streamData" (.dict []) = some streamData ∧
      pyGetD streamData "H264_streamData" (.dict []) = some h264 ∧
      pyGetD h264 "stream" (.dict []) = some (.dict skvs) ∧
      pyFalsy (.dict skvs) = false ∧
      qualLoop skvs ([], none) = some (quals, some best) ∧
      pyGetD room "title" (.str "Douyin Live") = some title ∧
      pyGetD roomInfo "anchor" (.dict []) = some anchor ∧
      pyGetD anchor "nickname" (.str "Unknown") = some author ∧
      r = ⟨best, title, author, true, quals⟩ := by
  simp only [legacyBody] at h
  split at h
  · exact LegacyStep.noConfusion h
  next roomStore hRS =>
  split at h
  · exact LegacyStep.noConfusion h
  next roomInfo hRI =>
  split at h
  · exact LegacyStep.noConfusion h
  next room hRoom =>
  split at h
  · exact LegacyStep.noConfusion h
  next streamStore hSS =>
  split at h
  · exact LegacyStep.noConfusion h
  next streamData hSD =>
  split at h
  · exact LegacyStep.noConfusion h
  next h264 hH =>
  split at h
  · exact LegacyStep.noConfusion h
  next stream hStr =>
  split at h
  · exact LegacyStep.noConfusion h
  next hsf =>
  split at h
  next skvs =>
    split at h
    · exact LegacyStep.noConfusion h
    next quals bestOpt hQ =>
    split at h
    · exact LegacyStep.noConfusion h
    next best =>
    split at h
    · exact LegacyStep.noConfusion h
    next title hTitle =>
    split at h
    · exact LegacyStep.noConfusion h
    next anchor hAnchor =>
    split at h
    · exact LegacyStep.noConfusion h
    next author hNick =>
    cases h
    exact ⟨roomStore, roomInfo, room, streamStore, streamData, h264, skvs,
      quals, best, title, anchor, author, hRS, hRI, hRoom, hSS, hSD, hH,
      hStr, by simpa using hsf, hQ, hTitle, hAnchor, hNick, rfl⟩
  next hnd => exact LegacyStep.noConfusion h

/-- Construction of a `found` outcome of the legacy per-item body. -/
theorem legacyBody_eq_found (state roomStore roomInfo room streamStore
      streamData h264 : PyVal) (skvs quals : List (String × PyVal))
    (best title anchor author : PyVal)
    (hRS : pyGetD state "roomStore" (.dict []) = some roomStore)
    (hRI : pyGetD roomStore "roomInfo" (.dict []) = some roomInfo)
    (hRoom : pyGetD roomInfo "room" (.dict []) = some room)
    (hSS : pyGetD state "streamStore" (.dict []) = some streamStore)
    (hSD : pyGetD streamStore "streamData" (.dict []) = some streamData)
    (hH : pyGetD streamData "H264_streamData" (.dict []) = some h264)
    (hStr : pyGetD h264 "stream" (.dict []) = some (.dict skvs))
    (hsf : pyFalsy (.dict skvs) = false)
    (hQ : qualLoop skvs ([], none) = some (quals, some best))
    (hTitle : pyGetD room "title" (.str "Douyin Live") = some title)
    (hAnchor : pyGetD roomInfo "anchor" (.dict []) = some anchor)
    (hNick : pyGetD anchor "nickname" (.str "Unknown") = some author) :
    legacyBody state = .found ⟨best, title, author, true, quals⟩ := by
  simp [legacyBody, hRS, hRI, hRoom, hSS, hSD, hH, hStr, hsf, hQ, hTitle,
    hAnchor, hNick]

/-- Strategy 3 on the unwrapped single-state encoding reduces to its
per-item body. -/
theorem legacyFromData_unwrap (p : PyVal) :
    legacyFromData (unwrapEncoding p) =
      match legacyBody p with
      | .found r => some r
      | .next => none
      | .abort => none := by
  cases hb : legacyBody p <;>
    simp [legacyFromData, unwrapEncoding, legacyLoop, dictLookup, hb]

/-- The core of the round-trip comparison: on the wrapped-array and the
equivalent unwrapped-list encodings of one payload, the two JSON strategies
either agree exactly, or both succeed with records differing only in
`is_live` (strategy 2 computed `status == 2` as false, strategy 3 hardcodes
`true`). -/
theorem wrapVsUnwrap (p : PyVal) :
    wrapperFromData (wrapEncoding p) = legacyFromData (unwrapEncoding p) ∨
    (∃ r2 r3, wrapperFromData (wrapEncoding p) = some r2 ∧
      legacyFromData (unwrapEncoding p) = some r3 ∧
      r2.url = r3.url ∧ r2.title = r3.title ∧ r2.author = r3.author ∧
      r2.qualities = r3.qualities ∧ r2.isLive = false ∧ r3.isLive = true) := by
  cases hW : wrapperFromData (wrapEncoding p) with
  | some r2 =>
    obtain ⟨xs, state, roomStore, roomInfo, room, anchor, title, author,
      status, streamStore, streamData, h264, skvs, quals, best, hxs, hst,
      hf, hRS, hRI, hRoom, hAnchor, hTitle, hNick, hSt, hSS, hSD, hH, hStr,
      hsf, hQ, hr2⟩ := wrapperFromData_inv _ _ hW
    have hxs' : xs = [.str "$", .str "$L12", .null, .dict [("state", p)]] := by
      have := hxs.symm
      simpa [wrapEncoding] using this
    subst hxs'
    have hstate : p = state := by
      simpa [firstStateItem, dictLookup] using hst
    subst hstate
    have hL : legacyFromData (unwrapEncoding p) =
        some ⟨best, title, author, true, quals⟩ := by
      rw [legacyFromData_unwrap,
        legacyBody_eq_found p roomStore roomInfo room streamStore streamData
          h264 skvs quals best title anchor author hRS hRI hRoom hSS hSD hH
          hStr hsf hQ hTitle hAnchor hNick]
    cases hlv : pyEqInt status 2 with
    | true =>
      left
      rw [hL, hr2, hlv]
    | false =>
      right
      exact ⟨r2, ⟨best, title, author, true, quals⟩, rfl, hL,
        by rw [hr2], by rw [hr2], by rw [hr2], by rw [hr2],
        by rw [hr2]; exact hlv, rfl⟩
  | none =>
    cases hL : legacyFromData (unwrapEncoding p) with
    | none => left; rfl
    | some r3 =>
      exfalso
      rw [legacyFromData_unwrap] at hL
      cases hb : legacyBody p with
      | next => rw [hb] at hL; exact Option.noConfusion hL
      | abort => rw [hb] at hL; exact Option.noConfusion hL
      | found r =>
      rw [hb] at hL
      obtain rfl : r = r3 := Option.some.inj hL
      obtain ⟨roomStore, roomInfo, room, streamStore, streamData, h264, skvs,
        quals, best, title, anchor, author, hRS, hRI, hRoom, hSS, hSD, hH,
        hStr, hsf, hQ, hTitle, hAnchor, hNick, hr3⟩ :=
        legacyBody_found_inv _ _ hb
      have hpd : ∃ kvs, p = PyVal.dict kvs := by
        cases p <;> simp_all [pyGetD]
      obtain ⟨kvs, rfl⟩ := hpd
      have hkne : kvs ≠ [] := by
        rintro rfl
        simp only [pyGetD, dictLookup, Option.getD, Option.some.injEq] at hSS
        subst hSS
        simp only [pyGetD, dictLookup, Option.getD, Option.some.injEq] at hSD
        subst hSD
        simp only [pyGetD, dictLookup, Option.getD, Option.some.injEq] at hH
        subst hH
        simp only [pyGetD, dictLookup, Option.getD, Option.some.injEq] at hStr
        rw [← hStr] at hsf
        simp [pyFalsy] at hsf
      have hfp : pyFalsy (PyVal.dict kvs) = false := by
        cases kvs with
        | nil => exact absurd rfl hkne
        | cons a l => rfl
      obtain ⟨status, hSt⟩ := pyGetD_some_of_some "status" (.int 0) hTitle
      have hws : wrapperFromData (wrapEncoding (PyVal.dict kvs)) =
          some ⟨best, title, author, pyEqInt status 2, quals⟩ :=
        wrapperFromData_eq_some
          [.str "$", .str "$L12", .null, .dict [("state", .dict kvs)]]
          (.dict kvs) roomStore roomInfo room anchor title author status
          streamStore streamData h264 skvs quals best rfl hfp hRS hRI hRoom
          hAnchor hTitle hNick hSt hSS hSD hH hStr hsf hQ
      rw [hW] at hws
      exact Option.noConfusion hws

/-- Strategy 2's full pipeline factors through its parsed payload. -/
theorem jsonWrapperExtract_of_parsed (html : String) (data : PyVal)
    (h : wrapperParsedData html = some data) :
    jsonWrapperExtract html = wrapperFromData data := by
  unfold wrapperParsedData at h
  cases hp : wrapperPayload html with
  | none => rw [hp] at h; exact Option.noConfusion h
  | some s =>
    rw [hp] at h
    simp only [Option.bind] at h
    simp [jsonWrapperExtract, hp, h]

/-- Strategy 3's full pipeline factors through its parsed payload. -/
theorem legacyExtract_of_parsed (html : String) (data : PyVal)
    (h : legacyParsedData html = some data) :
    legacyExtract html = legacyFromData data := by
  unfold legacyParsedData at h
  cases hp : pacePayloadRaw html with
  | none => rw [hp] at h; exact Option.noConfusion h
  | some s =>
    rw [hp] at h
    simp only [Option.bind] at h
    simp [legacyExtract, hp, h]

/-! ## C2: strategy 2 on wrapped vs strategy 3 on unwrapped fixtures -/

set_option maxRecDepth 1000000 in
/-- C2 counterexample: the wrapped and unwrapped fixtures embed the same
logical payload (`offStatePv`, room status 4), both strategies succeed and
agree on `url`, yet strategy 2 reports `is_live = false` while strategy 3
reports `is_live = true` — the records are not equal in every field. -/
theorem wrapped_legacy_roundtrip_counterexample :
    wrapperParsedData wrappedOffHtml = some (wrapEncoding offStatePv) ∧
    legacyParsedData unwrappedOffHtml = some (unwrapEncoding offStatePv) ∧
    (jsonWrapperExtract wrappedOffHtml).map StreamRec.url =
      (legacyExtract unwrappedOffHtml).map StreamRec.url ∧
    (jsonWrapperExtract wrappedOffHtml).map StreamRec.isLive = some false ∧
    (legacyExtract unwrappedOffHtml).map StreamRec.isLive = some true :=
  ⟨rfl, rfl, rfl, rfl, rfl⟩

/-- C2 amended: when strategy 2 is applied to a document embedding the
wrapped-array encoding of a payload and strategy 3 to one embedding the
equivalent unwrapped-list encoding, the outcomes agree on success, and the
records agree on `url`, `title`, `author` and `qualities`; `is_live` agrees
exactly when strategy 2 computed `status == 2` as true, since strategy 3
always reports `is_live = true`. -/
theorem wrapped_legacy_roundtrip_amended (html2 html3 : String) (p : PyVal)
    (hw : wrapperParsedData html2 = some (wrapEncoding p))
    (hl : legacyParsedData html3 = some (unwrapEncoding p)) :
    jsonWrapperExtract html2 = legacyExtract html3 ∨
    (∃ r2 r3, jsonWrapperExtract html2 = some r2 ∧
      legacyExtract html3 = some r3 ∧
      r2.url = r3.url ∧ r2.title = r3.title ∧ r2.author = r3.author ∧
      r2.qualities = r3.qualities ∧ r2.isLive = false ∧ r3.isLive = true) := by
  rw [jsonWrapperExtract_of_parsed _ _ hw, legacyExtract_of_parsed _ _ hl]
  exact wrapVsUnwrap p

set_option maxRecDepth 1000000 in
/-- Witness for the amended C2 on the status-2 fixtures (where the two
extractions agree exactly). -/
theorem wrapped_legacy_roundtrip_amended_witness :
    jsonWrapperExtract wrappedLiveHtml = legacyExtract unwrappedLiveHtml ∨
    (∃ r2 r3, jsonWrapperExtract wrappedLiveHtml = some r2 ∧
      legacyExtract unwrappedLiveHtml = some r3 ∧
      r2.url = r3.url ∧ r2.title = r3.title ∧ r2.author = r3.author ∧
      r2.qualities = r3.qualities ∧ r2.isLive = false ∧ r3.isLive = true) :=
  wrapped_legacy_roundtrip_amended wrappedLiveHtml unwrappedLiveHtml
    liveStatePv (by rfl) (by rfl)

/-! ## C3: `is_live` is exactly `status == 2` for strategy 2 -/

/-- C3: whenever strategy 2 returns a record (its marker matched, the
embedded payload parsed as JSON with a state element and a non-empty H264
stream map with at least one FLV URL), the record's `is_live` is `true`
exactly when the room's `status` field (default 0) compares equal to 2; in
particular any non-2 status such as 4 yields `is_live = false`. -/
theorem wrapper_is_live_iff_status_two (html : String) (r : StreamRec)
    (h : jsonWrapperExtract html = some r) :
    ∃ data st, wrapperParsedData html = some data ∧
      wrappedRoomStatus data = some st ∧
      (r.isLive = true ↔ pyEqInt st 2 = true) := by
  unfold jsonWrapperExtract at h
  split at h
  · exact Option.noConfusion h
  next s hW =>
  split at h
  · exact Option.noConfusion h
  next data hJ =>
  refine ⟨data, ?_⟩
  have hparsed : wrapperParsedData html = some data := by
    simp [wrapperParsedData, hW, hJ]
  simp only [wrapperFromData] at h
  split at h
  · exact Option.noConfusion h
  next state hst =>
  split at h
  · exact Option.noConfusion h
  next hf =>
  split at h
  · exact Option.noConfusion h
  next roomStore hRS =>
  split at h
  · exact Option.noConfusion h
  next roomInfo hRI =>
  split at h
  next room anchor hRoom hAnchor =>
    split at h
    next title author status hTitle hNick hSt =>
      split at h
      · exact Option.noConfusion h
      next streamStore hSS =>
      split at h
      · exact Option.noConfusion h
      next streamData hSD =>
      split at h
      · exact Option.noConfusion h
      next h264 hH =>
      split at h
      · exact Option.noConfusion h
      next stream hStr =>
      split at h
      · exact Option.noConfusion h
      next hsf =>
      split at h
      next skvs =>
        split at h
        · exact Option.noConfusion h
        next qb hQ =>
        split at h
        · exact Option.noConfusion h
        next best hBest =>
        cases h
        refine ⟨status, hparsed, ?_, by simp⟩
        simp [wrappedRoomStatus, hst, hf, hRS, hRI, hRoom, hSt]
      next hnd => exact Option.noConfusion h
    next hmiss => exact Option.noConfusion h
  next hmiss2 => exact Option.noConfusion h

/-! ## The parser produces well-formed values -/

/-- Key list of a dict after assignment: unchanged when the key is present,
extended by the key otherwise. -/
theorem dictAssign_map_fst (kvs : List (String × PyVal)) (k : String)
    (v : PyVal) :
    (dictAssign kvs k v).map Prod.fst =
      if k ∈ kvs.map Prod.fst then kvs.map Prod.fst
      else kvs.map Prod.fst ++ [k] := by
  induction kvs with
  | nil => simp [dictAssign]
  | cons a rest ih =>
    obtain ⟨k', v'⟩ := a
    by_cases hk : k' = k
    · subst hk
      simp [dictAssign]
    · simp only [dictAssign, if_neg hk, List.map_cons, ih]
      by_cases hmem : k ∈ rest.map Prod.fst <;>
        simp [hmem, Ne.symm hk]

/-- `dictAssign` preserves distinctness of keys. -/
theorem dictAssign_fst_nodup {kvs : List (String × PyVal)} {k : String}
    {v : PyVal} (h : (kvs.map Prod.fst).Nodup) :
    ((dictAssign kvs k v).map Prod.fst).Nodup := by
  rw [dictAssign_map_fst]
  by_cases hmem : k ∈ kvs.map Prod.fst
  · simpa [hmem]
  · simpa [hmem, List.nodup_append] using h

/-- Every pair of a dict after assignment is an old pair or carries the
assigned value. -/
theorem dictAssign_mem {kvs : List (String × PyVal)} {k : String}
    {v : PyVal} {p : String × PyVal} (h : p ∈ dictAssign kvs k v) :
    p ∈ kvs ∨ p.2 = v := by
  induction kvs with
  | nil =>
    rw [show dictAssign [] k v = [(k, v)] from rfl, List.mem_singleton] at h
    right; rw [h]
  | cons a rest ih =>
    obtain ⟨k', v'⟩ := a
    by_cases hk : k' = k
    · subst hk
      rw [show dictAssign ((k', v') :: rest) k' v = (k', v) :: rest from
        by simp [dictAssign]] at h
      rcases List.mem_cons.mp h with h1 | h1
      · right; rw [h1]
      · left; exact List.mem_cons_of_mem _ h1
    · rw [show dictAssign ((k', v') :: rest) k v =
          (k', v') :: dictAssign rest k v from by simp [dictAssign, hk]] at h
      rcases List.mem_cons.mp h with h1 | h1
      · left; rw [h1]; exact List.mem_cons_self _ _
      · rcases ih h1 with h2 | h2
        · left; exact List.mem_cons_of_mem _ h2
        · right; exact h2

/-- The object fold of the parser keeps keys distinct and values
well-formed. -/
theorem foldAssign_invariant (prs : List (String × PyVal)) :
    ∀ d : List (String × PyVal), (d.map Prod.fst).Nodup →
    (∀ p ∈ d, PyWF p.2) → (∀ p ∈ prs, PyWF p.2) →
    ((prs.foldl (fun d p => dictAssign d p.1 p.2) d).map Prod.fst).Nodup ∧
    ∀ p ∈ prs.foldl (fun d p => dictAssign d p.1 p.2) d, PyWF p.2 := by
  induction prs with
  | nil => intro d hnd hwd _; exact ⟨hnd, hwd⟩
  | cons a prs ih =>
    intro d hnd hwd hv
    simp only [List.foldl_cons]
    refine ih _ (dictAssign_fst_nodup hnd) ?_ fun p hp => hv p (by simp [hp])
    intro p hp
    rcases dictAssign_mem hp with h' | h'
    · exact hwd p h'
    · rw [h']
      exact hv a (by simp)

/-- JSON numbers parse to well-formed values. -/
theorem parseNum_wf (cs : List Char) (v : PyVal) (rest : List Char)
    (h : parseNum cs = some (v, rest)) : PyWF v := by
  unfold parseNum at h
  rw [Option.map_eq_some'] at h
  obtain ⟨⟨tok, r⟩, _, heq⟩ := h
  cases heq
  cases tok with
  | inl n => exact PyWF.int n
  | inr s => exact PyWF.numRaw s

/-- All five parsing functions produce well-formed values. -/
theorem parse_wf (fuel : Nat) :
    (∀ cs v rest, parseVal fuel cs = some (v, rest) → PyWF v) ∧
    (∀ cs v rest, parseArr fuel cs = some (v, rest) → PyWF v) ∧
    (∀ cs xs rest, parseArrItems fuel cs = some (xs, rest) →
      ∀ v ∈ xs, PyWF v) ∧
    (∀ cs v rest, parseObj fuel cs = some (v, rest) → PyWF v) ∧
    (∀ cs prs rest, parseObjItems fuel cs = some (prs, rest) →
      ∀ p ∈ prs, PyWF p.2) := by
  induction fuel with
  | zero =>
    refine ⟨?_, ?_, ?_, ?_, ?_⟩ <;> intro cs a rest h <;>
      exact Option.noConfusion h
  | succ f ih =>
    obtain ⟨ihV, ihA, ihAI, ihO, ihOI⟩ := ih
    refine ⟨?_, ?_, ?_, ?_, ?_⟩
    · intro cs v rest h
      simp only [parseVal] at h
      split at h
      · exact Option.noConfusion h
      next c cs' =>
      split at h
      · rw [Option.map_eq_some'] at h
        obtain ⟨⟨s, r⟩, _, hv⟩ := h
        cases hv
        exact PyWF.str s
      split at h
      · exact ihO _ _ _ h
      split at h
      · exact ihA _ _ _ h
      split at h
      · cases h; exact PyWF.bool true
      split at h
      · cases h; exact PyWF.bool false
      split at h
      · cases h; exact PyWF.null
      exact parseNum_wf _ _ _ h
    · intro cs v rest h
      simp only [parseArr] at h
      split at h
      · cases h; exact PyWF.list (by simp)
      rw [Option.map_eq_some'] at h
      obtain ⟨⟨xs, r⟩, hai, hv⟩ := h
      cases hv
      exact PyWF.list (ihAI _ _ _ hai)
    · intro cs xs rest h
      simp only [parseArrItems] at h
      split at h
      · exact Option.noConfusion h
      next v' rest' hV =>
      split at h
      · rw [Option.map_eq_some'] at h
        obtain ⟨⟨xs', r⟩, hai, hv⟩ := h
        cases hv
        intro v hv
        rcases List.mem_cons.mp hv with rfl | hmem
        · exact ihV _ _ _ hV
        · exact ihAI _ _ _ hai v hmem
      · cases h
        intro v hv
        rcases List.mem_cons.mp hv with rfl | hmem
        · exact ihV _ _ _ hV
        · exact absurd hmem (List.not_mem_nil v)
      · exact Option.noConfusion h
    · intro cs v rest h
      simp only [parseObj] at h
      split at h
      swap
      · exact Option.noConfusion h
      split at h
      · cases h
        exact PyWF.dict (by simp) (by simp)
      rw [Option.map_eq_some'] at h
      obtain ⟨⟨prs, r⟩, hoi, hv⟩ := h
      cases hv
      obtain ⟨hnd, hwv⟩ :=
        foldAssign_invariant prs [] (by simp) (by simp) (ihOI _ _ _ hoi)
      exact PyWF.dict hnd hwv
    · intro cs prs rest h
      simp only [parseObjItems] at h
      split at h
      case _ k' rest' =>
        split at h
        · exact Option.noConfusion h
        next k rest2 hK =>
        split at h
        case _ rest3 =>
          split at h
          · exact Option.noConfusion h
          next val rest4 hV =>
          split at h
          · rw [Option.map_eq_some'] at h
            obtain ⟨⟨prs', r⟩, hoi, hv⟩ := h
            cases hv
            intro p hp
            rcases List.mem_cons.mp hp with rfl | hmem
            · exact ihV _ _ _ hV
            · exact ihOI _ _ _ hoi p hmem
          case _ c rest5 =>
            split at h
            · cases h
              intro p hp
              rcases List.mem_cons.mp hp with rfl | hmem
              · exact ihV _ _ _ hV
              · exact absurd hmem (List.not_mem_nil p)
            · exact Option.noConfusion h
          case _ => exact Option.noConfusion h
        case _ => exact Option.noConfusion h
      case _ => exact Option.noConfusion h

/-- `json.loads` produces well-formed values. -/
theorem parseJson_wf (s : String) (v : PyVal) (h : parseJson s = some v) :
    PyWF v := by
  unfold parseJson at h
  split at h
  next v' rest hp =>
    split at h
    · cases h; exact (parse_wf _).1 _ _ _ hp
    · exact Option.noConfusion h
  next => exact Option.noConfusion h

/-! ## Well-formedness propagation through the navigation chain -/

/-- A successful `dictLookup` returns the value of some member pair. -/
theorem dictLookup_mem {k : String} {kvs : List (String × PyVal)} {v : PyVal}
    (h : dictLookup k kvs = some v) : ∃ p ∈ kvs, p.2 = v := by
  induction kvs with
  | nil => exact Option.noConfusion h
  | cons a rest ih =>
    obtain ⟨k', v'⟩ := a
    by_cases hk : k' = k
    · rw [dictLookup, if_pos hk] at h
      exact ⟨(k', v'), by simp, Option.some.inj h⟩
    · rw [dictLookup, if_neg hk] at h
      obtain ⟨p, hp, hpv⟩ := ih h
      exact ⟨p, by simp [hp], hpv⟩

/-- `pyGetD` preserves well-formedness (given a well-formed default). -/
theorem pyWF_pyGetD {v d w : PyVal} {k : String} (hv : PyWF v) (hd : PyWF d)
    (h : pyGetD v k d = some w) : PyWF w := by
  cases v with
  | dict kvs =>
    obtain rfl := Option.some.inj h
    cases hl : dictLookup k kvs with
    | none => simpa using hd
    | some u =>
      obtain ⟨p, hp, hpv⟩ := dictLookup_mem hl
      cases hv with
      | dict hk hvv => simpa [← hpv] using hvv p hp
  | null => exact Option.noConfusion h
  | bool b => exact Option.noConfusion h
  | int n => exact Option.noConfusion h
  | numRaw s => exact Option.noConfusion h
  | str s => exact Option.noConfusion h
  | list xs => exact Option.noConfusion h

/-- The reverse state scan returns a well-formed value from a well-formed
list. -/
theorem pyWF_firstStateItem {xs : List PyVal} {st : PyVal}
    (hxs : ∀ v ∈ xs, PyWF v) (h : firstStateItem xs = some st) : PyWF st := by
  induction xs with
  | nil => exact Option.noConfusion h
  | cons item rest ih =>
    have htail : ∀ v ∈ rest, PyWF v :=
      fun v hv => hxs v (List.mem_cons_of_mem _ hv)
    cases item with
    | dict kvs =>
      rw [firstStateItem] at h
      cases hl : dictLookup "state" kvs with
      | some u =>
        rw [hl] at h
        obtain rfl := Option.some.inj h
        obtain ⟨p, hp, hpv⟩ := dictLookup_mem hl
        have := hxs (.dict kvs) (List.mem_cons_self _ _)
        cases this with
        | dict hk hvv => simpa [← hpv] using hvv p hp
      | none =>
        rw [hl] at h
        exact ih htail h
    | null => exact ih htail h
    | bool b => exact ih htail h
    | int n => exact ih htail h
    | numRaw s => exact ih htail h
    | str s => exact ih htail h
    | list ys => exact ih htail h

/-- Assignment with a fresh key is an append. -/
theorem dictAssign_append {kvs : List (String × PyVal)} {k : String}
    {v : PyVal} (h : k ∉ kvs.map Prod.fst) :
    dictAssign kvs k v = kvs ++ [(k, v)] := by
  induction kvs with
  | nil => rfl
  | cons a rest ih =>
    obtain ⟨k', v'⟩ := a
    simp only [List.map_cons, List.mem_cons] at h
    push_neg at h
    rw [dictAssign, if_neg (Ne.symm h.1), ih h.2, List.cons_append]

/-- The quality loop over a duplicate-free stream map keeps the first FLV
url (the one recorded as best) among the values of the accumulated
qualities dict. -/
theorem qualLoop_best_mem (skvs : List (String × PyVal)) :
    ∀ (q0 : List (String × PyVal)) (b0 : Option PyVal)
      (quals : List (String × PyVal)) (best : PyVal),
      (skvs.map Prod.fst).Nodup →
      (∀ k ∈ q0.map Prod.fst, k ∉ skvs.map Prod.fst) →
      (∀ u, b0 = some u → u ∈ q0.map Prod.snd) →
      qualLoop skvs (q0, b0) = some (quals, some best) →
      best ∈ quals.map Prod.snd := by
  induction skvs with
  | nil =>
    intro q0 b0 quals best _ _ hb0 h
    rw [qualLoop] at h
    have hinj := Option.some.inj h
    have hq : q0 = quals := congrArg Prod.fst hinj
    have hb : b0 = some best := congrArg Prod.snd hinj
    subst hq
    exact hb0 best hb
  | cons a rest ih =>
    obtain ⟨k, qd⟩ := a
    intro q0 b0 quals best hnd hdisj hb0 h
    rw [List.map_cons, List.nodup_cons] at hnd
    obtain ⟨hknotin, hndr⟩ := hnd
    have hdisjr : ∀ k' ∈ q0.map Prod.fst, k' ∉ rest.map Prod.fst := by
      intro k' hk' hmem
      exact hdisj k' hk' (by simp [hmem])
    cases qd with
    | dict qkvs =>
      simp only [qualLoop] at h
      split at h
      · exact Option.noConfusion h
      next flv hflv =>
      split at h
      · exact ih _ _ _ _ hndr hdisjr hb0 h
      next hfal =>
      have hknotq : k ∉ q0.map Prod.fst := by
        intro hkq
        exact hdisj k hkq (by simp)
      rw [dictAssign_append hknotq] at h
      refine ih _ _ _ _ hndr ?_ ?_ h
      · intro k' hk'
        rw [List.map_append, List.mem_append] at hk'
        rcases hk' with hk' | hk'
        · exact hdisjr k' hk'
        · simp only [List.map_cons, List.map_nil, List.mem_singleton] at hk'
          subst hk'
          exact hknotin
      · intro u hu
        rw [List.map_append, List.mem_append]
        cases b0 with
        | none =>
          simp at hu
          subst hu
          right; simp
        | some u0 =>
          simp at hu
          subst hu
          left; exact hb0 u0 rfl
    | null => exact ih _ _ _ _ hndr hdisjr hb0 h
    | bool b => exact ih _ _ _ _ hndr hdisjr hb0 h
    | int n => exact ih _ _ _ _ hndr hdisjr hb0 h
    | numRaw s => exact ih _ _ _ _ hndr hdisjr hb0 h
    | str s => exact ih _ _ _ _ hndr hdisjr hb0 h
    | list ys => exact ih _ _ _ _ hndr hdisjr hb0 h

/-- Inversion of a successful legacy loop: some dict element carries the
state whose body produced the record. -/
theorem legacyLoop_found_inv (xs : List PyVal) (r : StreamRec)
    (h : legacyLoop xs = some r) :
    ∃ kvs state, PyVal.dict kvs ∈ xs ∧
      dictLookup "state" kvs = some state ∧ legacyBody state = .found r := by
  induction xs with
  | nil => exact Option.noConfusion h
  | cons item rest ih =>
    have htail : legacyLoop rest = some r →
        ∃ kvs state, PyVal.dict kvs ∈ rest ∧
          dictLookup "state" kvs = some state ∧
          legacyBody state = .found r := ih
    cases item with
    | dict kvs =>
      rw [legacyLoop] at h
      cases hl : dictLookup "state" kvs with
      | some state =>
        simp only [hl] at h
        cases hb : legacyBody state with
        | found r' =>
          simp only [hb] at h
          obtain rfl := Option.some.inj h
          exact ⟨kvs, state, List.mem_cons_self _ _, hl, hb⟩
        | next =>
          simp only [hb] at h
          obtain ⟨kvs', state', hm, hl', hb'⟩ := htail h
          exact ⟨kvs', state', List.mem_cons_of_mem _ hm, hl', hb'⟩
        | abort =>
          simp only [hb] at h
          exact Option.noConfusion h
      | none =>
        simp only [hl] at h
        obtain ⟨kvs', state', hm, hl', hb'⟩ := htail h
        exact ⟨kvs', state', List.mem_cons_of_mem _ hm, hl', hb'⟩
    | null =>
      obtain ⟨kvs', state', hm, hl', hb'⟩ := htail h
      exact ⟨kvs', state', List.mem_cons_of_mem _ hm, hl', hb'⟩
    | bool b =>
      obtain ⟨kvs', state', hm, hl', hb'⟩ := htail h
      exact ⟨kvs', state', List.mem_cons_of_mem _ hm, hl', hb'⟩
    | int n =>
      obtain ⟨kvs', state', hm, hl', hb'⟩ := htail h
      exact ⟨kvs', state', List.mem_cons_of_mem _ hm, hl', hb'⟩
    | numRaw s =>
      obtain ⟨kvs', state', hm, hl', hb'⟩ := htail h
      exact ⟨kvs', state', List.mem_cons_of_mem _ hm, hl', hb'⟩
    | str s =>
      obtain ⟨kvs', state', hm, hl', hb'⟩ := htail h
      exact ⟨kvs', state', List.mem_cons_of_mem _ hm, hl', hb'⟩
    | list ys =>
      obtain ⟨kvs', state', hm, hl', hb'⟩ := htail h
      exact ⟨kvs', state', List.mem_cons_of_mem _ hm, hl', hb'⟩

/-- Whenever strategy 2 returns a record, the qualities map is non-empty and
the record's url is one of its values. -/
theorem wrapper_url_in_values (html : String) (r : StreamRec)
    (h : jsonWrapperExtract html = some r) :
    r.qualities ≠ [] ∧ r.url ∈ qualValues r.qualities := by
  unfold jsonWrapperExtract at h
  split at h
  · exact Option.noConfusion h
  next s hW =>
  split at h
  · exact Option.noConfusion h
  next data hJ =>
  have hwf : PyWF data := parseJson_wf _ _ hJ
  obtain ⟨xs, state, roomStore, roomInfo, room, anchor, title, author,
    status, streamStore, streamData, h264, skvs, quals, best, hxs, hst,
    hf, hRS, hRI, hRoom, hAnchor, hTitle, hNick, hSt, hSS, hSD, hH, hStr,
    hsf, hQ, hr⟩ := wrapperFromData_inv _ _ h
  subst hxs
  have hxswf : ∀ v ∈ xs, PyWF v := by
    cases hwf with
    | list h' => exact h'
  have hstwf : PyWF state :=
    pyWF_firstStateItem (fun v hv => hxswf v (List.mem_reverse.mp hv)) hst
  have hdwf : PyWF (PyVal.dict []) := PyWF.dict (by simp) (by simp)
  have hsswf : PyWF streamStore := pyWF_pyGetD hstwf hdwf hSS
  have hsdwf : PyWF streamData := pyWF_pyGetD hsswf hdwf hSD
  have h264wf : PyWF h264 := pyWF_pyGetD hsdwf hdwf hH
  have hstrwf : PyWF (PyVal.dict skvs) := pyWF_pyGetD h264wf hdwf hStr
  have hnd : (skvs.map Prod.fst).Nodup := by
    cases hstrwf with
    | dict hk _ => exact hk
  have hmem : best ∈ quals.map Prod.snd :=
    qualLoop_best_mem skvs [] none quals best hnd (by simp) (by simp) hQ
  subst hr
  constructor
  · intro hq
    have hq' : quals = [] := hq
    rw [hq'] at hmem
    simp at hmem
  · simpa [qualValues] using hmem

/-- Whenever strategy 3 returns a record, the qualities map is non-empty and
the record's url is one of its values. -/
theorem legacy_url_in_values (html : String) (r : StreamRec)
    (h : legacyExtract html = some r) :
    r.qualities ≠ [] ∧ r.url ∈ qualValues r.qualities := by
  unfold legacyExtract at h
  split at h
  · exact Option.noConfusion h
  next s hW =>
  split at h
  · exact Option.noConfusion h
  next data hJ =>
  have hwf : PyWF data := parseJson_wf _ _ hJ
  unfold legacyFromData at h
  split at h
  next xs =>
    obtain ⟨kvs, state, hmemx, hlk, hfound⟩ := legacyLoop_found_inv _ _ h
    have hxswf : ∀ v ∈ xs, PyWF v := by
      cases hwf with
      | list h' => exact h'
    have hstwf : PyWF state := by
      have hitem := hxswf _ hmemx
      obtain ⟨p, hp, hpv⟩ := dictLookup_mem hlk
      cases hitem with
      | dict hk hvv => simpa [← hpv] using hvv p hp
    obtain ⟨roomStore, roomInfo, room, streamStore, streamData, h264, skvs,
      quals, best, title, anchor, author, hRS, hRI, hRoom, hSS, hSD, hH,
      hStr, hsf, hQ, hTitle, hAnchor, hNick, hr⟩ :=
      legacyBody_found_inv _ _ hfound
    have hdwf : PyWF (PyVal.dict []) := PyWF.dict (by simp) (by simp)
    have hsswf : PyWF streamStore := pyWF_pyGetD hstwf hdwf hSS
    have hsdwf : PyWF streamData := pyWF_pyGetD hsswf hdwf hSD
    have h264wf : PyWF h264 := pyWF_pyGetD hsdwf hdwf hH
    have hstrwf : PyWF (PyVal.dict skvs) := pyWF_pyGetD h264wf hdwf hStr
    have hnd : (skvs.map Prod.fst).Nodup := by
      cases hstrwf with
      | dict hk _ => exact hk
    have hmem : best ∈ quals.map Prod.snd :=
      qualLoop_best_mem skvs [] none quals best hnd (by simp) (by simp) hQ
    subst hr
    constructor
    · intro hq
      have hq' : quals = [] := hq
      rw [hq'] at hmem
      simp at hmem
    · simpa [qualValues] using hmem
  next hnl => exact Option.noConfusion h

/-! ## The Direct-URL quality map -/

/-- A successful association lookup comes from a member pair with that
key. -/
theorem strLookup_mem {t : String} {l : List (String × String)} {v : String}
    (h : List.lookup t l = some v) : ∃ p ∈ l, p.1 = t ∧ p.2 = v := by
  induction l with
  | nil => exact Option.noConfusion h
  | cons a rest ih =>
    obtain ⟨k, w⟩ := a
    cases htk : (t == k) with
    | true =>
      simp only [List.lookup, htk] at h
      exact ⟨(k, w), by simp, (eq_of_beq htk).symm, Option.some.inj h⟩
    | false =>
      simp only [List.lookup, htk] at h
      obtain ⟨p, hp, hp1, hp2⟩ := ih h
      exact ⟨p, by simp [hp], hp1, hp2⟩

/-- Lookup skips over an appended tail while it succeeds on the front. -/
theorem strLookup_append_some {q l : List (String × String)} {t v : String}
    (h : List.lookup t q = some v) : List.lookup t (q ++ l) = some v := by
  induction q with
  | nil => exact Option.noConfusion h
  | cons a rest ih =>
    obtain ⟨k, w⟩ := a
    rw [List.cons_append]
    cases htk : (t == k) with
    | true => simpa only [List.lookup, htk] using h
    | false =>
      simp only [List.lookup, htk] at h ⊢
      exact ih h

/-- Lookup moves to an appended tail when the front fails. -/
theorem strLookup_append_none {q l : List (String × String)} {t : String}
    (h : List.lookup t q = none) :
    List.lookup t (q ++ l) = List.lookup t l := by
  induction q with
  | nil => rfl
  | cons a rest ih =>
    obtain ⟨k, w⟩ := a
    rw [List.cons_append]
    cases htk : (t == k) with
    | true =>
      simp only [List.lookup, htk] at h
      exact Option.noConfusion h
    | false =>
      simp only [List.lookup, htk] at h ⊢
      exact ih h

/-- Lookup through the `PyVal.str` embedding of the qualities pairs. -/
theorem dictLookup_map_str (t : String) (l : List (String × String)) :
    dictLookup t (l.map fun p => (p.1, PyVal.str p.2)) =
      (List.lookup t l).map PyVal.str := by
  induction l with
  | nil => rfl
  | cons a rest ih =>
    obtain ⟨k, v⟩ := a
    by_cases hk : k = t
    · subst hk
      simp [dictLookup, List.lookup]
    · have hbk : (t == k) = false := by
        simp [Ne.symm hk]
      simp [dictLookup, List.lookup, hk, hbk, ih]

/-- The quality fold preserves an existing binding (first-occurrence
wins). -/
theorem buildQual_fold_lookup_some (urls : List String) :
    ∀ (q : List (String × String)) (t v : String),
      List.lookup t q = some v →
      List.lookup t (urls.foldl buildQualStep q) = some v := by
  induction urls with
  | nil => intro q t v h; simpa using h
  | cons u urls ih =>
    intro q t v h
    rw [List.foldl_cons]
    apply ih
    unfold buildQualStep
    cases htok : qualityToken u.data with
    | none => exact h
    | some t' =>
      cases hq : (List.lookup t' q).isNone with
      | false => simpa [hq] using h
      | true =>
        simp only [hq, if_true]
        exact strLookup_append_some h

/-- On a fresh key, the quality fold binds it to the first candidate whose
token is that key. -/
theorem buildQual_fold_lookup_none (urls : List String) :
    ∀ (q : List (String × String)) (t : String),
      List.lookup t q = none →
      List.lookup t (urls.foldl buildQualStep q) = firstWithToken t urls := by
  induction urls with
  | nil => intro q t h; simpa [firstWithToken] using h
  | cons u urls ih =>
    intro q t h
    rw [List.foldl_cons, firstWithToken]
    cases htok : qualityToken u.data with
    | none =>
      rw [show buildQualStep q u = q from by simp [buildQualStep, htok]]
      rw [ih q t h]
      simp [htok]
    | some t' =>
      by_cases het : t' = t
      · subst het
        have hqn : (List.lookup t' q).isNone = true := by simp [h]
        rw [show buildQualStep q u = q ++ [(t', u)] from
          by simp [buildQualStep, htok, hqn]]
        have hlk : List.lookup t' (q ++ [(t', u)]) = some u := by
          rw [strLookup_append_none h]
          simp [List.lookup]
        rw [buildQual_fold_lookup_some urls _ _ _ hlk]
        simp
      · have hstep : List.lookup t (buildQualStep q u) = none := by
          unfold buildQualStep
          rw [htok]
          cases hq : (List.lookup t' q).isNone with
          | true =>
            simp only [hq, if_true]
            rw [strLookup_append_none h]
            simp [List.lookup, show (t == t') = false from by simp [Ne.symm het]]
          | false => simpa [hq] using h
        rw [ih _ t hstep]
        simp [htok, het]

/-- Every pair of the quality fold is inherited or keyed by a processed
candidate. -/
theorem buildQual_fold_mem (urls : List String) :
    ∀ (q : List (String × String)) (p : String × String),
      p ∈ urls.foldl buildQualStep q → p ∈ q ∨ p.2 ∈ urls := by
  induction urls with
  | nil => intro q p h; left; simpa using h
  | cons u urls ih =>
    intro q p h
    rw [List.foldl_cons] at h
    rcases ih _ _ h with h' | h'
    · unfold buildQualStep at h'
      split at h'
      next t' htok =>
        split at h'
        · rcases List.mem_append.mp h' with h'' | h''
          · left; exact h''
          · right
            rw [List.mem_singleton.mp h'']
            simp
        · left; exact h'
      next htok => left; exact h'
    · right; exact List.mem_cons_of_mem _ h'

/-- Every value stored by the quality fold carries a quality token. -/
theorem buildQual_fold_token (urls : List String) :
    ∀ (q : List (String × String)) (p : String × String),
      (∀ p' ∈ q, (qualityToken p'.2.data).isSome) →
      p ∈ urls.foldl buildQualStep q → (qualityToken p.2.data).isSome := by
  induction urls with
  | nil => intro q p hq h; exact hq p (by simpa using h)
  | cons u urls ih =>
    intro q p hq h
    rw [List.foldl_cons] at h
    refine ih _ _ ?_ h
    intro p' hp'
    unfold buildQualStep at hp'
    split at hp'
    next t' htok =>
      split at hp'
      · rcases List.mem_append.mp hp' with h'' | h''
        · exact hq p' h''
        · rw [List.mem_singleton.mp h'']
          simp [htok]
      · exact hq p' hp'
    next htok => exact hq p' hp'

/-- Inversion of a successful Direct-URL extraction. -/
theorem directExtract_inv (html : String) (r : StreamRec)
    (h : directExtract html = some r) :
    ∃ best rest, flvUrls html ++ m3u8Urls html = best :: rest ∧
      r.url = PyVal.str best ∧ r.isLive = true ∧
      r.qualities =
        (if buildQual ((best :: rest).take 10) = []
         then [("best", best)]
         else buildQual ((best :: rest).take 10)).map
          fun p => (p.1, PyVal.str p.2) := by
  simp only [directExtract] at h
  split at h
  · exact Option.noConfusion h
  next best tail heq =>
  cases h
  exact ⟨best, tail, heq, rfl, rfl, by rw [heq]⟩

/-- The quality lookup of a Direct-URL record equals first-occurrence over
the code's candidate order, limited to ten candidates. -/
theorem direct_lookup_firstTok (html : String) (r : StreamRec)
    (h : directExtract html = some r) (t : String) (ht : t ≠ "best") :
    dictLookup t r.qualities =
      (firstWithToken t ((flvUrls html ++ m3u8Urls html).take 10)).map
        PyVal.str := by
  obtain ⟨best, rest, hc, hurl, hlive, hq⟩ := directExtract_inv _ _ h
  rw [hq, hc]
  have hbase := buildQual_fold_lookup_none ((best :: rest).take 10) [] t rfl
  by_cases hbq : buildQual ((best :: rest).take 10) = []
  · rw [if_pos hbq]
    unfold buildQual at hbq
    rw [hbq] at hbase
    rw [← hbase]
    have hbt : ("best" : String) ≠ t := fun hh => ht hh.symm
    simp [dictLookup, hbt]
  · rw [if_neg hbq]
    rw [dictLookup_map_str]
    unfold buildQual
    rw [hbase]

set_option maxRecDepth 1000000 in
/-- Witness for C3: the wrapped fixture with `status = 4` extracts a record
with `is_live = false`, and its parsed room status is the integer 4. -/
theorem wrapper_is_live_iff_status_two_witness :
    jsonWrapperExtract wrappedOffHtml =
      some ⟨.str "http://u_or.flv", .str "T", .str "A", false,
        [("origin", .str "http://u_or.flv")]⟩ ∧
    ∃ data st, wrapperParsedData wrappedOffHtml = some data ∧
      wrappedRoomStatus data = some st ∧
      ((false : Bool) = true ↔ pyEqInt st 2 = true) :=
  have h : jsonWrapperExtract wrappedOffHtml =
      some ⟨.str "http://u_or.flv", .str "T", .str "A", false,
        [("origin", .str "http://u_or.flv")]⟩ := by rfl
  ⟨h, wrapper_is_live_iff_status_two wrappedOffHtml _ h⟩

/-! ## C1: the quality-map invariant -/

/-- C1 counterexample: strategy 1 on a document whose first (token-less)
FLV URL precedes a token-carrying one returns `is_live = true` with a
non-empty qualities map that does **not** contain the record's url among
its values. -/
theorem quality_map_invariant_counterexample :
    directExtract plainThenHdHtml =
      some ⟨.str "https://x/plain.flv", .str "Douyin Live", .str "Unknown",
        true, [("hd", .str "https://x/a_hd.flv")]⟩ ∧
    PyVal.str "https://x/plain.flv" ∉
      qualValues [("hd", PyVal.str "https://x/a_hd.flv")] :=
  ⟨rfl, by simp [qualValues]⟩

/-- C1 amended: whenever a strategy returns a record with
`is_live = true`, its qualities map is non-empty; the record's url appears
among the map's values for strategies 2 and 3 unconditionally, and for
strategy 1 exactly when the first candidate URL carries a quality token or
no candidate among the first ten does (synthetic `best` key). -/
theorem quality_map_invariant_amended (html : String) (r : StreamRec) :
    (directExtract html = some r → r.isLive = true →
      r.qualities ≠ [] ∧
      (r.url ∈ qualValues r.qualities ↔
        ((qualityToken
            (((flvUrls html ++ m3u8Urls html).headD "").data)).isSome ∨
         buildQual ((flvUrls html ++ m3u8Urls html).take 10) = []))) ∧
    (jsonWrapperExtract html = some r → r.isLive = true →
      r.qualities ≠ [] ∧ r.url ∈ qualValues r.qualities) ∧
    (legacyExtract html = some r → r.isLive = true →
      r.qualities ≠ [] ∧ r.url ∈ qualValues r.qualities) := by
  refine ⟨?_, fun h _ => wrapper_url_in_values html r h,
    fun h _ => legacy_url_in_values html r h⟩
  intro h _
  obtain ⟨best, rest, hc, hurl, hlive, hq⟩ := directExtract_inv _ _ h
  rw [hc]
  have hhead : (best :: rest).headD "" = best := rfl
  rw [hhead]
  refine ⟨?_, ?_, ?_⟩
  · rw [hq]
    by_cases hbq : buildQual ((best :: rest).take 10) = []
    · rw [if_pos hbq]; simp
    · rw [if_neg hbq]; simpa using hbq
  · intro hmem
    by_cases hbq : buildQual ((best :: rest).take 10) = []
    · right; exact hbq
    · left
      rw [hq, if_neg hbq, hurl] at hmem
      unfold qualValues at hmem
      rw [List.map_map, List.mem_map] at hmem
      obtain ⟨pq, hpqmem, hpq⟩ := hmem
      have hbest : pq.2 = best := by simpa using hpq
      have htk := buildQual_fold_token ((best :: rest).take 10) [] pq
        (by simp) hpqmem
      rw [hbest] at htk
      exact htk
  · intro hor
    rcases hor with htok | hbq
    · obtain ⟨t0, ht0⟩ := Option.isSome_iff_exists.mp htok
      have hfw : firstWithToken t0 ((best :: rest).take 10) = some best := by
        rw [List.take_succ_cons, firstWithToken, if_pos ht0]
      have hlk : List.lookup t0
          (buildQual ((best :: rest).take 10)) = some best := by
        have hb := buildQual_fold_lookup_none ((best :: rest).take 10) [] t0 rfl
        unfold buildQual
        rw [hb, hfw]
      obtain ⟨pq, hpqmem, hpq1, hpq2⟩ := strLookup_mem hlk
      have hbqne : buildQual ((best :: rest).take 10) ≠ [] :=
        List.ne_nil_of_mem hpqmem
      rw [hq, if_neg hbqne, hurl]
      unfold qualValues
      rw [List.map_map, List.mem_map]
      exact ⟨pq, hpqmem, by simp [hpq2]⟩
    · rw [hq, if_pos hbq, hurl]
      unfold qualValues
      simp

set_option maxRecDepth 1000000 in
/-- Witness for the amended C1: strategy 1 on Scenario A's fixture (first
candidate `_hd.`-tagged, url among values), and strategies 2 and 3 on the
live fixtures. -/
theorem quality_map_invariant_amended_witness :
    ((⟨.str "https://x.com/a_hd.flv", .str "Douyin Live", .str "Unknown",
        true, [("hd", .str "https://x.com/a_hd.flv"),
          ("sd", .str "https://x.com/a_sd.flv")]⟩ : StreamRec).qualities ≠ [] ∧
      ((⟨.str "https://x.com/a_hd.flv", .str "Douyin Live", .str "Unknown",
        true, [("hd", .str "https://x.com/a_hd.flv"),
          ("sd", .str "https://x.com/a_sd.flv")]⟩ : StreamRec).url ∈
        qualValues [("hd", PyVal.str "https://x.com/a_hd.flv"),
          ("sd", PyVal.str "https://x.com/a_sd.flv")] ↔
        ((qualityToken
            (((flvUrls hdSdHtml ++ m3u8Urls hdSdHtml).headD "").data)).isSome ∨
         buildQual ((flvUrls hdSdHtml ++ m3u8Urls hdSdHtml).take 10) = []))) ∧
    ((⟨.str "http://u_or.flv", .str "T", .str "A", true,
        [("origin", .str "http://u_or.flv")]⟩ : StreamRec).qualities ≠ [] ∧
      (⟨.str "http://u_or.flv", .str "T", .str "A", true,
        [("origin", .str "http://u_or.flv")]⟩ : StreamRec).url ∈
        qualValues [("origin", PyVal.str "http://u_or.flv")]) ∧
    ((⟨.str "http://u_or.flv", .str "T", .str "A", true,
        [("origin", .str "http://u_or.flv")]⟩ : StreamRec).qualities ≠ [] ∧
      (⟨.str "http://u_or.flv", .str "T", .str "A", true,
        [("origin", .str "http://u_or.flv")]⟩ : StreamRec).url ∈
        qualValues [("origin", PyVal.str "http://u_or.flv")]) :=
  ⟨(quality_map_invariant_amended hdSdHtml _).1 (by rfl) rfl,
   (quality_map_invariant_amended wrappedLiveHtml _).2.1 (by rfl) rfl,
   (quality_map_invariant_amended unwrappedLiveHtml _).2.2 (by rfl) rfl⟩

/-! ## C9: first-occurrence-wins order for strategy 1 -/

/-- C9 counterexample: with an `_hd.` M3U8 URL first in document order and
an `_hd.` FLV URL second, the code maps `hd` to the FLV URL (candidates are
ordered FLV-then-M3U8), not to the candidate that appears first in the
document. -/
theorem direct_quality_first_occurrence_counterexample :
    (directExtract m3u8BeforeFlvHtml).map StreamRec.qualities =
      some [("hd", PyVal.str "https://x/b_hd.flv")] ∧
    docOrderCandidates m3u8BeforeFlvHtml =
      ["https://x/a_hd.m3u8", "https://x/b_hd.flv"] ∧
    firstWithToken "hd" (docOrderCandidates m3u8BeforeFlvHtml) =
      some "https://x/a_hd.m3u8" ∧
    ("https://x/b_hd.flv" : String) ≠ "https://x/a_hd.m3u8" :=
  ⟨rfl, rfl, rfl, by decide⟩

/-- C9 amended: for every quality token, the qualities entry is the
**first candidate in the code's candidate order** — all FLV matches in
order of appearance followed by all M3U8 matches in order of appearance,
limited to the first ten — not raw document order; and the record's url is
the first candidate of that order (the first FLV match in document order
when one exists, else the first M3U8 match). -/
theorem direct_quality_first_occurrence_amended (html : String)
    (r : StreamRec) (h : directExtract html = some r) :
    (∀ t ∈ (["sd", "hd", "uhd", "origin", "ld"] : List String),
      dictLookup t r.qualities =
        (firstWithToken t ((flvUrls html ++ m3u8Urls html).take 10)).map
          PyVal.str) ∧
    ∃ best rest, flvUrls html ++ m3u8Urls html = best :: rest ∧
      r.url = PyVal.str best := by
  constructor
  · intro t ht
    have htb : t ≠ "best" := by fin_cases ht <;> decide
    exact direct_lookup_firstTok html r h t htb
  · obtain ⟨best, rest, hc, hurl, _, _⟩ := directExtract_inv _ _ h
    exact ⟨best, rest, hc, hurl⟩

/-- Witness for the amended C9 on Scenario A's fixture. -/
theorem direct_quality_first_occurrence_amended_witness :
    dictLookup "hd" [("hd", PyVal.str "https://x.com/a_hd.flv"),
        ("sd", PyVal.str "https://x.com/a_sd.flv")] =
      (firstWithToken "hd"
        ((flvUrls hdSdHtml ++ m3u8Urls hdSdHtml).take 10)).map PyVal.str ∧
    ∃ best rest, flvUrls hdSdHtml ++ m3u8Urls hdSdHtml = best :: rest ∧
      (PyVal.str "https://x.com/a_hd.flv" : PyVal) = PyVal.str best :=
  have h := direct_quality_first_occurrence_amended hdSdHtml
    ⟨.str "https://x.com/a_hd.flv", .str "Douyin Live", .str "Unknown",
      true, [("hd", .str "https://x.com/a_hd.flv"),
        ("sd", .str "https://x.com/a_sd.flv")]⟩ (by rfl)
  ⟨h.1 "hd" (by simp), h.2⟩

/-! ## C10: only the first ten candidates feed the qualities map -/

/-- C10: strategy 1 builds its qualities map from at most the first 10
candidates (all FLV matches in appearance order, then all M3U8 matches in
appearance order): every stored value is one of those candidates, and a
quality token with no match among them gets no entry. -/
theorem direct_qualities_first_ten (html : String) (r : StreamRec)
    (h : directExtract html = some r) :
    (∀ p ∈ r.qualities, ∃ u, p.2 = PyVal.str u ∧
      u ∈ (flvUrls html ++ m3u8Urls html).take 10) ∧
    (∀ t ∈ (["sd", "hd", "uhd", "origin", "ld"] : List String),
      firstWithToken t ((flvUrls html ++ m3u8Urls html).take 10) = none →
      dictLookup t r.qualities = none) := by
  obtain ⟨best, rest, hc, hurl, hlive, hq⟩ := directExtract_inv _ _ h
  constructor
  · intro p hp
    rw [hq] at hp
    by_cases hbq : buildQual ((best :: rest).take 10) = []
    · rw [if_pos hbq] at hp
      simp only [List.map_cons, List.map_nil, List.mem_singleton] at hp
      refine ⟨best, by rw [hp], ?_⟩
      rw [hc, List.take_succ_cons]
      simp
    · rw [if_neg hbq] at hp
      rw [List.mem_map] at hp
      obtain ⟨pq, hpqmem, hpq⟩ := hp
      rcases buildQual_fold_mem ((best :: rest).take 10) [] pq hpqmem with
        h' | h'
      · simp at h'
      · refine ⟨pq.2, by rw [← hpq], ?_⟩
        rw [hc]
        exact h'
  · intro t ht hnone
    have htb : t ≠ "best" := by fin_cases ht <;> decide
    rw [direct_lookup_firstTok html r h t htb, hnone]
    rfl

/-- Witness for C10 on the counterexample-of-C1 fixture (two candidates,
one `hd` entry). -/
theorem direct_qualities_first_ten_witness :
    (∀ p ∈ ([("hd", PyVal.str "https://x/a_hd.flv")] :
        List (String × PyVal)), ∃ u, p.2 = PyVal.str u ∧
      u ∈ (flvUrls plainThenHdHtml ++ m3u8Urls plainThenHdHtml).take 10) ∧
    (∀ t ∈ (["sd", "hd", "uhd", "origin", "ld"] : List String),
      firstWithToken t
        ((flvUrls plainThenHdHtml ++ m3u8Urls plainThenHdHtml).take 10) =
        none →
      dictLookup t [("hd", PyVal.str "https://x/a_hd.flv")] = none) :=
  direct_qualities_first_ten plainThenHdHtml
    ⟨.str "https://x/plain.flv", .str "Douyin Live", .str "Unknown", true,
      [("hd", .str "https://x/a_hd.flv")]⟩ (by rfl)

end DouyinStream
